import Mathlib

/-!
Shallow embedding of the bubble-quiz room/game coordinator.

The definitions below are translated from the repository's source:
  * `src/lib/game/GameManager.ts` (room registry, question-pool selection,
    phase transitions, scoring),
  * `server.ts` (socket event handlers and the per-room game loop tick).

Timestamps are modelled as `Int` (JavaScript millisecond numbers), player
and room records as Lean structures, the registry `Map` as an association
list with `Map.set` / `Map.get` / `Map.delete` semantics, and the
uniformly random in-place shuffle `arr.sort(() => Math.random() - 0.5)`
as an arbitrary function assumed (where a theorem needs it) to permute
its input.  Handlers return the mutated room together with the list of
events they emit where a claim is about the emitted events.
-/

namespace BubbleQuiz

/-- Upper-casing of a room code, mirroring the string method used by
`createRoom` / `getRoom` / `deleteRoom` for normalization. -/
def toUpperCase (s : String) : String := ⟨s.data.map Char.toUpper⟩

/-- Room phase, mirroring the `phase` union type. -/
inductive Phase where
  | lobby
  | question
  | reveal
  | finished
deriving DecidableEq

/-- One participant of a room, mirroring the `Player` record. -/
structure Player where
  token : String
  socketId : String
  name : String
  avatar : String
  score : Int
  connected : Bool
  lastSeen : Int
  joker5050 : Bool
  jokerSpy : Bool
  jokerRisk : Bool
  selectedChoice : Option Int
  usedRiskThisQ : Bool
  usedSpyThisQ : Bool
  used5050ThisQ : Bool
deriving DecidableEq

/-- Snapshot of the displayed question (`currentQ`): text and choices only,
the correct index is kept in a separate room field. -/
structure CurrentQ where
  text : String
  choices : List String
deriving DecidableEq

/-- Display identity stored in the reveal data's pick groups. -/
structure RevealEntry where
  name : String
  avatar : String
  token : String
deriving DecidableEq

/-- Reveal data built by `revealAnswer`: the correct index, the players
grouped by their pick, and the round's point value. -/
structure RevealData where
  correctIndex : Int
  picksByChoice : List (Int × List RevealEntry)
  pointsForThisRound : Int
deriving DecidableEq

/-- Room settings bag (`settings`). -/
structure Settings where
  simultaneousJokers : Bool
deriving DecidableEq

/-- Full room state, mirroring `RoomState`.  Fields that the TypeScript
object only acquires later (`revealDeadlineTs`, `paused`, `pauseRemaining`)
are modelled as their JavaScript `undefined` default (`none` / `false`). -/
structure RoomState where
  code : String
  hostToken : String
  createdAt : Int
  lastActivity : Int
  players : List Player
  phase : Phase
  questionIndex : Int
  questionOrder : List String
  currentQ : Option CurrentQ
  correctIndex : Option Int
  qDeadlineTs : Option Int
  revealDeadlineTs : Option Int
  jokerUsedThisQ : Bool
  livePicks : List (String × Option Int)
  questionClosed : Bool
  revealData : Option RevealData
  paused : Bool
  pauseRemaining : Option Int
  settings : Settings
deriving DecidableEq

/-- Row of the `question` table as consumed by the selector and
`nextQuestion` (`options` is stored pre-parsed instead of as JSON text). -/
structure Question where
  id : String
  text : String
  options : List String
  correctIndex : Int
  deletedAt : Option Int
deriving DecidableEq

/-- Row of the `questionCollection` join table. -/
structure QuestionCollection where
  questionId : String
  collectionId : String
deriving DecidableEq

/-- Row of the `questionTag` join table. -/
structure QuestionTag where
  questionId : String
  tagId : String
deriving DecidableEq

/-- The persistent store queried by `startGame` and `nextQuestion`. -/
structure DB where
  question : List Question
  questionCollection : List QuestionCollection
  questionTag : List QuestionTag
deriving DecidableEq

/-- Game configuration passed to `start_game` (`data.config`). -/
structure Config where
  collectionIds : List String
  tagIds : List String
  ratioStrategy : Option String
  totalQuestions : Option Nat
  customRatios : Option (List (String × Int))
deriving DecidableEq

/-- Events a handler emits; `roomUpdate` carries the full room object that
`io.to(code).emit("room:update", { room })` serializes to the subscribers. -/
inductive ServerEvent where
  | roomUpdate (room : RoomState)
  | roomCreated (code : String)
  | roomJoined (code : String)
  | roomDeleted
  | errorMsg (msg : String)
  | jokerEffect5050 (remove : List Int)
  | jokerEffectSpy
  | jokerTriggered (playerToken playerName ty : String)
deriving DecidableEq

/-- Insertion into a JavaScript `Set` modelled as a first-occurrence
duplicate-free list: adding an already present element is a no-op. -/
def setAdd (l : List String) (x : String) : List String :=
  if x ∈ l then l else l ++ [x]

/-- Conversion of a list to a JavaScript `Set` (`new Set(list)`), keeping
the first occurrence of each element. -/
def listToSet (l : List String) : List String := l.foldl setAdd []

/-- Room registry: the `Map<string, RoomState>` owned by `GameManager`. -/
abbrev Registry : Type := List (String × RoomState)

/-- Lookup mirroring `Map.get`. -/
def Registry.get (reg : Registry) (k : String) : Option RoomState :=
  (List.find? (fun kv => kv.1 = k) reg).map (fun kv => kv.2)

/-- Insertion mirroring `Map.set`: overwrites the entry when the key is
already present, appends it otherwise. -/
def Registry.set (reg : Registry) (k : String) (v : RoomState) : Registry :=
  if List.any reg (fun kv => kv.1 = k) then
    List.map (fun kv => if kv.1 = k then (k, v) else kv) reg
  else reg ++ [(k, v)]

/-- Removal mirroring `Map.delete`. -/
def Registry.del (reg : Registry) (k : String) : Registry :=
  List.filter (fun kv => kv.1 ≠ k) reg

namespace GameManager

/-- Fresh room literal built by `GameManager.createRoom`.  The TypeScript
object omits `revealDeadlineTs`, `paused`, `pauseRemaining` and `config`,
leaving them `undefined`. -/
def initialRoom (normalizedCode hostToken : String) (now : Int) : RoomState where
  code := normalizedCode
  hostToken := hostToken
  createdAt := now
  lastActivity := now
  players := []
  phase := Phase.lobby
  questionIndex := -1
  questionOrder := []
  currentQ := none
  correctIndex := none
  qDeadlineTs := none
  revealDeadlineTs := none
  jokerUsedThisQ := false
  livePicks := []
  questionClosed := false
  revealData := none
  paused := false
  pauseRemaining := none
  settings := { simultaneousJokers := false }

/-- Translation of `GameManager.createRoom`: normalizes the code to upper
case and unconditionally stores a fresh lobby room under it. -/
def createRoom (reg : Registry) (code hostToken : String) (now : Int) :
    Registry × RoomState :=
  let normalizedCode := toUpperCase code
  let room := initialRoom normalizedCode hostToken now
  (Registry.set reg normalizedCode room, room)

/-- Translation of `GameManager.getRoom`: empty codes yield `undefined`,
otherwise the lookup is case-insensitive via upper-casing. -/
def getRoom (reg : Registry) (code : String) : Option RoomState :=
  if code = "" then none else Registry.get reg (toUpperCase code)

/-- Translation of `GameManager.deleteRoom`.  The source first flips the
stored room's `phase` to `finished` (a signal to a concurrently running
game loop) and then removes it from the map; only the removal is visible
in the resulting registry. -/
def deleteRoom (reg : Registry) (code : String) : Registry :=
  if code = "" then reg
  else
    match Registry.get reg (toUpperCase code) with
    | some _ => Registry.del reg (toUpperCase code)
    | none => reg

/-- Translation of `GameManager.getPointsForQuestion`:
`Math.floor(index / 2) + 1`. -/
def getPointsForQuestion (index : Int) : Int := Int.fdiv index 2 + 1

/-- Scoring applied to one player inside `revealAnswer`'s loop. -/
def scorePlayer (basePoints correctIdx : Int) (p : Player) : Player :=
  match p.selectedChoice with
  | none => p
  | some c =>
    if c = correctIdx then
      { p with score := p.score + (if p.usedRiskThisQ then basePoints * 2 else basePoints) }
    else
      if p.usedRiskThisQ then { p with score := p.score - basePoints } else p

/-- Reveal-data pick registration: `picksByChoice[choice].push(entry)`,
creating the bucket first when the choice index has none (which happens
for out-of-range choices, the four in-range buckets being pre-seeded). -/
def addPick (m : List (Int × List RevealEntry)) (c : Int) (e : RevealEntry) :
    List (Int × List RevealEntry) :=
  if List.any m (fun kv => kv.1 = c) then
    List.map (fun kv => if kv.1 = c then (kv.1, kv.2 ++ [e]) else kv) m
  else m ++ [(c, [e])]

/-- Pick groups built by `revealAnswer` over all players with a non-null
pick, starting from the pre-seeded buckets `{0: [], 1: [], 2: [], 3: []}`. -/
def buildPicks (players : List Player) : List (Int × List RevealEntry) :=
  players.foldl
    (fun (m : List (Int × List RevealEntry)) (p : Player) =>
      match p.selectedChoice with
      | none => m
      | some c => addPick m c { name := p.name, avatar := p.avatar, token := p.token })
    [(0, []), (1, []), (2, []), (3, [])]

/-- Translation of `GameManager.revealAnswer`: enters the reveal phase,
clears the question deadline, and (when a correct index is loaded) builds
the reveal data and applies the scoring rule to every player. -/
def revealAnswer (room : RoomState) : RoomState :=
  let r := { room with phase := Phase.reveal, qDeadlineTs := none }
  match r.correctIndex with
  | none => r
  | some correctIdx =>
    let basePoints := getPointsForQuestion r.questionIndex
    { r with
      revealData := some
        { correctIndex := correctIdx
          picksByChoice := buildPicks r.players
          pointsForThisRound := basePoints }
      players := r.players.map (scorePlayer basePoints correctIdx) }

/-- Per-question reset applied to every player at the top of
`nextQuestion`. -/
def resetPlayerForQuestion (p : Player) : Player :=
  { p with
    selectedChoice := none
    usedRiskThisQ := false
    usedSpyThisQ := false
    used5050ThisQ := false }

/-- Mutation block at the top of `nextQuestion`: advance the index and
reset every per-question room and player field.  Note that
`revealDeadlineTs` is not among the fields the source resets. -/
def resetRoomForNext (room : RoomState) : RoomState :=
  { room with
    questionIndex := room.questionIndex + 1
    jokerUsedThisQ := false
    questionClosed := false
    revealData := none
    currentQ := none
    qDeadlineTs := none
    paused := false
    pauseRemaining := none
    players := room.players.map resetPlayerForQuestion
    livePicks := room.players.map (fun (p : Player) => (p.token, (none : Option Int))) }

/-- Loading half of `nextQuestion`: either finish the game (index out of
bounds, or the referenced question row missing) or load the question at
the current index and arm the 30-second question deadline. -/
def nextQuestionLoad (db : DB) (r : RoomState) (now : Int) : RoomState :=
  if (r.questionOrder.length : Int) ≤ r.questionIndex then
    { r with phase := Phase.finished }
  else
    match r.questionOrder.get? r.questionIndex.toNat with
    | none => { r with phase := Phase.finished }
    | some qId =>
      match db.question.find? (fun (q : Question) => q.id = qId) with
      | none => { r with phase := Phase.finished }
      | some q =>
        { r with
          currentQ := some { text := q.text, choices := q.options }
          correctIndex := some q.correctIndex
          phase := Phase.question
          qDeadlineTs := some (now + 30 * 1000) }

/-- Translation of `GameManager.nextQuestion`: the per-question reset
followed by the bounds check and question load. -/
def nextQuestion (db : DB) (room : RoomState) (now : Int) : RoomState :=
  nextQuestionLoad db (resetRoomForNext room) now

/-- The per-collection `Set` of question ids built from the
`questionCollection` rows whose collection is among the configured ids
(`questionsByCollection[cid]`). -/
def questionsByCollection (db : DB) (collectionIds : List String) (cid : String) :
    List String :=
  listToSet
    (((db.questionCollection.filter
        (fun (qc : QuestionCollection) => qc.collectionId ∈ collectionIds)).filter
        (fun (qc : QuestionCollection) => qc.collectionId = cid)).map
      (fun (qc : QuestionCollection) => qc.questionId))

/-- Set of every question id reachable from the configured collections,
plus (when tag filters are present) from the configured tags
(`allInvolvedIds`). -/
def allInvolvedIds (db : DB) (collectionIds tagIds : List String) : List String :=
  let fromCollections :=
    (db.questionCollection.filter
      (fun (qc : QuestionCollection) => qc.collectionId ∈ collectionIds)).map
      (fun (qc : QuestionCollection) => qc.questionId)
  let fromTags :=
    if tagIds ≠ [] then
      (db.questionTag.filter (fun (qt : QuestionTag) => qt.tagId ∈ tagIds)).map
        (fun (qt : QuestionTag) => qt.questionId)
    else []
  listToSet (fromCollections ++ fromTags)

/-- Set of the involved ids that have a non-deleted `question` row
(`validIdSet`). -/
def validIds (db : DB) (allInvolved : List String) : List String :=
  allInvolved.filter
    (fun id => db.question.any (fun (q : Question) => q.id = id ∧ q.deletedAt = none))

/-- Shortfall fill shared by the `consistent` and `custom` strategies:
when the deduplicated pick count is below the target, append shuffled
not-yet-picked valid ids from the whole involved pool. -/
def fillRemainder (shuffle : List String → List String)
    (allInvolved valid : List String) (totalNeeded : Nat)
    (finalIds : List String) : List String :=
  if (listToSet finalIds).length < totalNeeded then
    finalIds ++
      (shuffle (allInvolved.filter (fun id => id ∈ valid ∧ id ∉ finalIds))).take
        (totalNeeded - (listToSet finalIds).length)
  else finalIds

/-- Per-collection pick loop of the `consistent` strategy: from each
collection's available (valid) ids, take the shuffled per-collection
share. -/
def perCollectionTake (db : DB) (shuffle : List String → List String)
    (collectionIds valid : List String) (countPerCol : Nat) : List String :=
  collectionIds.foldl
    (fun (acc : List String) (cid : String) =>
      acc ++ (shuffle ((questionsByCollection db collectionIds cid).filter
        (· ∈ valid))).take countPerCol)
    []

/-- Pick phase of the `consistent` strategy: an even integer share of
`totalNeeded` per collection, then the shortfall fill. -/
def pickConsistent (db : DB) (shuffle : List String → List String)
    (collectionIds : List String) (allInvolved valid : List String)
    (totalNeeded : Nat) : List String :=
  fillRemainder shuffle allInvolved valid totalNeeded
    (perCollectionTake db shuffle collectionIds valid
      (totalNeeded / collectionIds.length))

/-- Per-entry pick loop of the `custom` strategy: the caller-supplied
count per named collection (entries with a non-positive count or an
unknown collection are skipped). -/
def customTakes (db : DB) (shuffle : List String → List String)
    (collectionIds : List String) (customRatios : List (String × Int))
    (valid : List String) : List String :=
  customRatios.foldl
    (fun (acc : List String) (entry : String × Int) =>
      if entry.2 > 0 ∧ entry.1 ∈ collectionIds then
        acc ++ (shuffle ((questionsByCollection db collectionIds entry.1).filter
          (· ∈ valid))).take entry.2.toNat
      else acc)
    []

/-- Pick phase of the `custom` strategy: the caller-supplied counts, then
the same shortfall fill as `consistent`. -/
def pickCustom (db : DB) (shuffle : List String → List String)
    (collectionIds : List String) (customRatios : List (String × Int))
    (allInvolved valid : List String) (totalNeeded : Nat) : List String :=
  fillRemainder shuffle allInvolved valid totalNeeded
    (customTakes db shuffle collectionIds customRatios valid)

/-- Effective ratio strategy (`config.ratioStrategy || "by_collection"`,
the empty string being falsy). -/
def configStrategy (config : Config) : String :=
  match config.ratioStrategy with
  | none => "by_collection"
  | some s => if s = "" then "by_collection" else s

/-- Effective total question count (`config.totalQuestions || 30`, zero
being falsy). -/
def configTotal (config : Config) : Nat :=
  match config.totalQuestions with
  | none => 30
  | some n => if n = 0 then 30 else n

/-- Strategy dispatch of the Question Pool Selector: the raw id picks of
the configured ratio strategy before the final dedup-and-shuffle. -/
def selectorFinalIds (db : DB) (shuffle : List String → List String)
    (config : Config) : List String :=
  if configStrategy config = "consistent" ∧ config.collectionIds ≠ [] then
    pickConsistent db shuffle config.collectionIds
      (allInvolvedIds db config.collectionIds config.tagIds)
      (validIds db (allInvolvedIds db config.collectionIds config.tagIds))
      (configTotal config)
  else if configStrategy config = "custom" ∧ config.customRatios.isSome then
    pickCustom db shuffle config.collectionIds (config.customRatios.getD [])
      (allInvolvedIds db config.collectionIds config.tagIds)
      (validIds db (allInvolvedIds db config.collectionIds config.tagIds))
      (configTotal config)
  else
    (shuffle ((allInvolvedIds db config.collectionIds config.tagIds).filter
      (· ∈ validIds db (allInvolvedIds db config.collectionIds config.tagIds)))).take
      (configTotal config)

/-- Question Pool Selector: the `questionOrder` resolution inside
`GameManager.startGame`.  With collection or tag filters the configured
strategy picks ids, the result is deduplicated (`new Set`) and given one
final shuffle; without filters all non-deleted question ids are shuffled
and capped at the constant 30. -/
def resolveQuestionOrder (db : DB) (shuffle : List String → List String)
    (config : Config) : List String :=
  if config.collectionIds ≠ [] ∨ config.tagIds ≠ [] then
    shuffle (listToSet (selectorFinalIds db shuffle config))
  else
    (shuffle ((db.question.filter (fun (q : Question) => q.deletedAt = none)).map
      (fun (q : Question) => q.id))).take 30

/-- Game-start reset applied to every player by `startGame`. -/
def resetPlayerForGame (p : Player) : Player :=
  { p with score := 0, joker5050 := true, jokerSpy := true, jokerRisk := true }

/-- Translation of `GameManager.startGame`: enters the question phase,
resolves the question order, rewinds the index to -1, resets every
player's score and power-ups, and loads the first question. -/
def startGame (db : DB) (shuffle : List String → List String)
    (room : RoomState) (config : Config) (now : Int) : RoomState :=
  let r := { room with
    phase := Phase.question
    questionOrder := resolveQuestionOrder db shuffle config
    questionIndex := -1
    players := room.players.map resetPlayerForGame }
  nextQuestion db r now

end GameManager

namespace Server

/-- Player literal inserted by the `create_room` and `join_room` handlers. -/
def freshPlayer (token sid name avatar : String) (now : Int) : Player where
  token := token
  socketId := sid
  name := name
  avatar := avatar
  score := 0
  connected := true
  lastSeen := now
  joker5050 := true
  jokerSpy := true
  jokerRisk := true
  selectedChoice := none
  usedRiskThisQ := false
  usedSpyThisQ := false
  used5050ThisQ := false

/-- Lookup used by every handler:
`Object.values(room.players).find(p => p.socketId === socket.id)`. -/
def findBySocket (players : List Player) (sid : String) : Option Player :=
  players.find? (fun p => p.socketId = sid)

/-- Mutation of the player object returned by `findBySocket`: only the
first matching entry is affected. -/
def updateFirstBySocket (players : List Player) (sid : String)
    (f : Player → Player) : List Player :=
  match players with
  | [] => []
  | p :: rest =>
    if p.socketId = sid then f p :: rest
    else p :: updateFirstBySocket rest sid f

/-- Room produced by the `create_room` handler: the fresh lobby room from
`GameManager.createRoom` with the creator inserted as host player
(`data.playerName || "Host"`). -/
def createRoomHandlerRoom (code playerToken sid playerName playerAvatar : String)
    (now : Int) : RoomState :=
  let room := GameManager.initialRoom (toUpperCase code) playerToken now
  { room with
    players :=
      [freshPlayer playerToken sid
        (if playerName = "" then "Host" else playerName) playerAvatar now] }

/-- Player-map mutation of the `join_room` handler: either reconnect the
player keyed by the supplied token (updating socket id, liveness and,
when non-empty, name and avatar) or insert a fresh player. -/
def joinPlayers (players : List Player) (token sid name avatar : String)
    (now : Int) : List Player :=
  if players.any (fun p => p.token = token) then
    players.map (fun p =>
      if p.token = token then
        { p with
          socketId := sid
          connected := true
          lastSeen := now
          name := if name ≠ "" then name else p.name
          avatar := if avatar ≠ "" then avatar else p.avatar }
      else p)
  else players ++ [freshPlayer token sid name avatar now]

/-- Room mutation of the `join_room` handler on an existing room: refresh
activity and apply the player reconnect-or-insert. -/
def joinRoomH (room : RoomState) (token sid name avatar : String) (now : Int) :
    RoomState :=
  { room with
    lastActivity := now
    players := joinPlayers room.players token sid name avatar now }

/-- Room mutation of the `start_game` handler: host-only (the handler
performs no phase check), delegating to `GameManager.startGame`. -/
def startGameH (db : DB) (shuffle : List String → List String)
    (room : RoomState) (sid : String) (config : Config) (now : Int) : RoomState :=
  match findBySocket room.players sid with
  | none => room
  | some p =>
    if p.token = room.hostToken then GameManager.startGame db shuffle room config now
    else room

/-- Room mutation of the `update_settings` handler: host-only and
lobby-only settings merge. -/
def updateSettingsH (room : RoomState) (sid : String) (settings : Settings) :
    RoomState :=
  match findBySocket room.players sid with
  | none => room
  | some p =>
    if p.token = room.hostToken ∧ room.phase = Phase.lobby then
      { room with settings := settings }
    else room

/-- Composition used at every reveal site: `revealAnswer` followed by
arming the 5-second reveal deadline. -/
def revealAndSchedule (room : RoomState) (now : Int) : RoomState :=
  { GameManager.revealAnswer room with revealDeadlineTs := some (now + 5000) }

/-- Mutation recorded by `submit_answer` before the all-answered check:
refresh activity and unconditionally overwrite the caller's pick (no
range validation of the choice value). -/
def submitApply (room : RoomState) (sid : String) (choice : Int) (now : Int) :
    RoomState :=
  { room with
    lastActivity := now
    players := updateFirstBySocket room.players sid
      (fun p => { p with selectedChoice := some choice }) }

/-- Early-reveal state forced by `submit_answer` once every player has a
non-null pick: reveal, arm the 5-second reveal deadline and clear the
question timer. -/
def submitReveal (room : RoomState) (sid : String) (choice : Int) (now : Int) :
    RoomState :=
  { GameManager.revealAnswer (submitApply room sid choice now) with
    revealDeadlineTs := some (now + 5000)
    qDeadlineTs := none }

/-- The `submit_answer` handler: while the phase is `question` and the
caller is a member, record the pick and broadcast the full room; when
every player now has a non-null pick, force the early reveal and
broadcast again. -/
def submitAnswerH (room : RoomState) (sid : String) (choice : Int) (now : Int) :
    RoomState × List ServerEvent :=
  match findBySocket room.players sid with
  | none => (room, [])
  | some _ =>
    if room.phase = Phase.question then
      if (submitApply room sid choice now).players.all
          (fun p => p.selectedChoice.isSome) then
        (submitReveal room sid choice now,
         [ServerEvent.roomUpdate (submitApply room sid choice now),
          ServerEvent.roomUpdate (submitReveal room sid choice now)])
      else
        (submitApply room sid choice now,
         [ServerEvent.roomUpdate (submitApply room sid choice now)])
    else (room, [])

/-- Branch of the `use_joker` handler once the acting player is found:
the round-lock rejection notifies the caller, while a request whose
specific power-up is already spent falls through every branch silently. -/
def useJokerApply (shuffleIdx : List Int → List Int) (room : RoomState)
    (sid : String) (p : Player) (ty : String) : RoomState × List ServerEvent :=
  if room.settings.simultaneousJokers = false ∧ room.jokerUsedThisQ = true then
        (room, [ServerEvent.errorMsg "Joker already used this round!"])
      else if ty = "5050" ∧ p.joker5050 = true then
        let r := { room with
          jokerUsedThisQ := true
          players := updateFirstBySocket room.players sid
            (fun q => { q with joker5050 := false, used5050ThisQ := true }) }
        let wrongIndices := ([0, 1, 2, 3] : List Int).filter
          (fun i => room.correctIndex ≠ some i)
        let removeIndices := (shuffleIdx wrongIndices).take 2
        (r, [ServerEvent.jokerEffect5050 removeIndices,
             ServerEvent.jokerTriggered p.token p.name "5050",
             ServerEvent.roomUpdate r])
      else if ty = "risk" ∧ p.jokerRisk = true then
        let r := { room with
          jokerUsedThisQ := true
          players := updateFirstBySocket room.players sid
            (fun q => { q with jokerRisk := false, usedRiskThisQ := true }) }
        (r, [ServerEvent.jokerTriggered p.token p.name "risk",
             ServerEvent.roomUpdate r])
      else if ty = "spy" ∧ p.jokerSpy = true then
        let r := { room with
          jokerUsedThisQ := true
          players := updateFirstBySocket room.players sid
            (fun q => { q with jokerSpy := false, usedSpyThisQ := true }) }
        (r, [ServerEvent.jokerEffectSpy,
             ServerEvent.jokerTriggered p.token p.name "spy",
             ServerEvent.roomUpdate r])
      else (room, [])

/-- The `use_joker` handler: question-phase only, and a silent no-op when
the caller is not a member of the room. -/
def useJokerH (shuffleIdx : List Int → List Int) (room : RoomState)
    (sid ty : String) : RoomState × List ServerEvent :=
  if room.phase ≠ Phase.question then (room, [])
  else
    match findBySocket room.players sid with
    | none => (room, [])
    | some p => useJokerApply shuffleIdx room sid p ty

/-- The `delete_room` handler: only when the room exists and the caller is
its host is the room removed and `room:deleted` broadcast; otherwise the
handler does nothing and emits nothing. -/
def deleteRoomH (reg : Registry) (code sid : String) : Registry × List ServerEvent :=
  match GameManager.getRoom reg code with
  | none => (reg, [])
  | some room =>
    match findBySocket room.players sid with
    | none => (reg, [])
    | some p =>
      if p.token = room.hostToken then
        (GameManager.deleteRoom reg code, [ServerEvent.roomDeleted])
      else (reg, [])

/-- The `pause_timer` handler: host-only and a no-op when already paused;
captures the active phase's remaining time and nulls that deadline. -/
def pauseH (room : RoomState) (sid : String) (now : Int) : RoomState :=
  match findBySocket room.players sid with
  | none => room
  | some p =>
    if p.token = room.hostToken ∧ room.paused = false then
      match room.phase, room.qDeadlineTs, room.revealDeadlineTs with
      | Phase.question, some d, _ =>
        { room with
          paused := true
          pauseRemaining := some (max 0 (d - now))
          qDeadlineTs := none }
      | Phase.reveal, _, some d =>
        { room with
          paused := true
          pauseRemaining := some (max 0 (d - now))
          revealDeadlineTs := none }
      | _, _, _ => { room with paused := true }
    else room

/-- Deadline restoration inside `resume_timer`: unpause, restore the
active phase's deadline as `now + pauseRemaining` when one is cached, and
clear the cached remainder (the source clears it after the branch; it is
folded into each branch here). -/
def resumeRestore (room : RoomState) (now : Int) : RoomState :=
  match room.phase, room.pauseRemaining with
  | Phase.question, some rem =>
    { room with paused := false, qDeadlineTs := some (now + rem), pauseRemaining := none }
  | Phase.reveal, some rem =>
    { room with paused := false, revealDeadlineTs := some (now + rem), pauseRemaining := none }
  | _, _ => { room with paused := false, pauseRemaining := none }

/-- The `resume_timer` handler: host-only and a no-op unless paused;
restores the active deadline and clears the cached remainder. -/
def resumeH (room : RoomState) (sid : String) (now : Int) : RoomState :=
  match findBySocket room.players sid with
  | none => room
  | some p =>
    if p.token = room.hostToken ∧ room.paused = true then resumeRestore room now
    else room

/-- Pause-state reset performed by `skip_phase` before branching. -/
def clearPause (room : RoomState) : RoomState :=
  { room with paused := false, pauseRemaining := none }

/-- Phase branch of `skip_phase`: force the current phase's normal
deadline-expiry transition immediately. -/
def skipApply (db : DB) (room : RoomState) (now : Int) : RoomState :=
  if room.phase = Phase.question then revealAndSchedule (clearPause room) now
  else if room.phase = Phase.reveal then
    GameManager.nextQuestion db (clearPause room) now
  else clearPause room

/-- The `skip_phase` handler: host-only; clears the pause state, then
forces the current phase's deadline transition. -/
def skipPhaseH (db : DB) (room : RoomState) (sid : String) (now : Int) : RoomState :=
  match findBySocket room.players sid with
  | none => room
  | some p =>
    if p.token = room.hostToken then skipApply db room now
    else room

/-- The disconnect handler (`GameManager.handleDisconnect`): marks the
player holding the socket as disconnected. -/
def disconnectH (room : RoomState) (sid : String) : RoomState :=
  { room with
    players := updateFirstBySocket room.players sid
      (fun p => { p with connected := false }) }

/-- Inactivity threshold of the game loop (10 minutes). -/
def INACTIVITY_LIMIT : Int := 10 * 60 * 1000

/-- Question-phase deadline stage of a loop tick: an elapsed question
deadline forces the reveal. -/
def tickQuestionStage (room : RoomState) (now : Int) : RoomState :=
  match room.qDeadlineTs with
  | some d => if d ≤ now then revealAndSchedule room now else room
  | none => room

/-- Question-phase all-answered stage of a loop tick: with an unelapsed
deadline and every pick non-null, force the early reveal. -/
def tickAllAnsweredStage (room : RoomState) (now : Int) : RoomState :=
  match room.qDeadlineTs with
  | some d =>
    if room.players.all (fun p => p.selectedChoice.isSome) ∧ now < d then
      revealAndSchedule room now
    else room
  | none => room

/-- Count of connected players read at the top of each tick. -/
def activePlayerCount (room : RoomState) : Nat :=
  (room.players.filter (fun p => p.connected)).length

/-- Activity refresh of a tick: rooms with at least one connected player
get `lastActivity = now`. -/
def refreshActivity (room : RoomState) (now : Int) : RoomState :=
  if activePlayerCount room = 0 then room else { room with lastActivity := now }

/-- Deadline section of a tick: skipped entirely while paused, otherwise
the current phase's deadline checks run. -/
def tickPhases (db : DB) (room : RoomState) (now : Int) : RoomState :=
  if room.paused then room
  else if room.phase = Phase.question then
    tickAllAnsweredStage (tickQuestionStage room now) now
  else if room.phase = Phase.reveal then
    match room.revealDeadlineTs with
    | some d => if d ≤ now then GameManager.nextQuestion db room now else room
    | none => room
  else room

/-- One iteration of `startGameLoop`'s interval: stop on `finished`,
finish inactive empty rooms, refresh activity otherwise, then run the
pause-guarded deadline checks. -/
def gameLoopTick (db : DB) (room : RoomState) (now : Int) : RoomState :=
  if room.phase = Phase.finished then room
  else if activePlayerCount room = 0 ∧ INACTIVITY_LIMIT < now - room.lastActivity then
    { room with phase := Phase.finished }
  else tickPhases db (refreshActivity room now) now

end Server

/-- Question store with a single four-choice question whose correct
choice index is 2. -/
def dbOneQuestion : DB where
  question := [{ id := "q1", text := "T1", options := ["a", "b", "c", "d"],
                 correctIndex := 2, deletedAt := none }]
  questionCollection := []
  questionTag := []

/-- Question store with two four-choice questions. -/
def dbTwoQuestions : DB where
  question := [{ id := "q1", text := "T1", options := ["a", "b", "c", "d"],
                 correctIndex := 2, deletedAt := none },
               { id := "q2", text := "T2", options := ["a", "b", "c", "d"],
                 correctIndex := 1, deletedAt := none }]
  questionCollection := []
  questionTag := []

/-- Configuration with no collection or tag filters and all defaults. -/
def cfgDefault : Config where
  collectionIds := []
  tagIds := []
  ratioStrategy := none
  totalQuestions := none
  customRatios := none

/-- Store for the custom-ratio scenario: one collection holding two valid
questions. -/
def dbCustom : DB where
  question := [{ id := "q1", text := "T1", options := ["a", "b"],
                 correctIndex := 0, deletedAt := none },
               { id := "q2", text := "T2", options := ["a", "b"],
                 correctIndex := 1, deletedAt := none }]
  questionCollection := [{ questionId := "q1", collectionId := "c1" },
                         { questionId := "q2", collectionId := "c1" }]
  questionTag := []

/-- Custom-ratio configuration requesting one question in total but two
from collection c1. -/
def cfgCustom : Config where
  collectionIds := ["c1"]
  tagIds := []
  ratioStrategy := some "custom"
  totalQuestions := some 1
  customRatios := some [("c1", 2)]

/-- Two-player room reaching the question phase, then one player submits:
the second update payload scenario for the broadcast-leak check. -/
def leakScenario : RoomState × List ServerEvent :=
  Server.submitAnswerH
    (Server.startGameH dbOneQuestion (fun l => l)
      (Server.joinRoomH (Server.createRoomHandlerRoom "AB" "h" "s1" "Host" "" 0)
        "p2" "s2" "P2" "" 0)
      "s1" cfgDefault 0)
    "s2" 0 1000

/-- Room reached by create, start (two questions), skip to reveal, skip to
the next question: the reveal deadline armed by the first skip survives
into the second question. -/
def staleRevealRoom : RoomState :=
  Server.skipPhaseH dbTwoQuestions
    (Server.skipPhaseH dbTwoQuestions
      (Server.startGameH dbTwoQuestions (fun l => l)
        (Server.createRoomHandlerRoom "AB" "h" "s1" "Host" "" 0)
        "s1" cfgDefault 0)
      "s1" 1000)
    "s1" 2000

/-- Two-player room at question index 2 with correct index 2: one risking
correct player and one non-risking wrong player. -/
def scoringRoom : RoomState :=
  { GameManager.initialRoom "SC" "h" 0 with
    phase := Phase.question
    questionIndex := 2
    correctIndex := some 2
    players :=
      [{ Server.freshPlayer "h" "s1" "Host" "" 0 with
         selectedChoice := some 2, usedRiskThisQ := true, score := 3 },
       { Server.freshPlayer "p2" "s2" "P2" "" 0 with
         selectedChoice := some 1, score := 5 }] }

/-- Room whose single question order is exhausted (index already at the
last position). -/
def exhaustedRoom : RoomState :=
  { GameManager.initialRoom "EX" "h" 0 with
    phase := Phase.reveal
    questionIndex := 0
    questionOrder := ["q1"]
    players := [Server.freshPlayer "h" "s1" "Host" "" 0] }

/-- Question-phase room with an armed question deadline for the
pause/resume round trip. -/
def pausableRoom : RoomState :=
  { GameManager.initialRoom "PR" "h" 0 with
    phase := Phase.question
    correctIndex := some 1
    qDeadlineTs := some 30000
    players := [Server.freshPlayer "h" "s1" "Host" "" 0,
                Server.freshPlayer "p2" "s2" "P2" "" 0] }

/-- Question-phase room whose player has already spent the fiftyFifty
power-up. -/
def spentJokerRoom : RoomState :=
  { GameManager.initialRoom "JK" "h" 0 with
    phase := Phase.question
    correctIndex := some 2
    players := [{ Server.freshPlayer "h" "s1" "Host" "" 0 with joker5050 := false }] }

/-- Variant of the spent-joker room that is additionally round-locked. -/
def lockedJokerRoom : RoomState :=
  { spentJokerRoom with jokerUsedThisQ := true }

/-- Room stored under code DEL whose host player holds socket sock-123
(mirroring the repository's deletion test fixture). -/
def delRoom : RoomState :=
  { GameManager.initialRoom "DEL" "t1" 0 with
    players := [Server.freshPlayer "t1" "sock-123" "H" "" 0] }

/-- Registry holding only the DEL room. -/
def delReg : Registry := [("DEL", delRoom)]

namespace Server

/-- Room states reachable from room creation through the public gateway
operations and the timer tick (all against a fixed question store). -/
inductive Reachable (db : DB) : RoomState → Prop where
  | create (code playerToken sid playerName playerAvatar : String) (now : Int) :
      Reachable db (createRoomHandlerRoom code playerToken sid playerName playerAvatar now)
  | join {r : RoomState} (h : Reachable db r) (token sid name avatar : String) (now : Int) :
      Reachable db (joinRoomH r token sid name avatar now)
  | start {r : RoomState} (h : Reachable db r) (shuffle : List String → List String)
      (sid : String) (config : Config) (now : Int) :
      Reachable db (startGameH db shuffle r sid config now)
  | settingsUpdate {r : RoomState} (h : Reachable db r) (sid : String) (s : Settings) :
      Reachable db (updateSettingsH r sid s)
  | submit {r : RoomState} (h : Reachable db r) (sid : String) (choice : Int) (now : Int) :
      Reachable db (submitAnswerH r sid choice now).1
  | joker {r : RoomState} (h : Reachable db r) (shuffleIdx : List Int → List Int)
      (sid ty : String) :
      Reachable db (useJokerH shuffleIdx r sid ty).1
  | pause {r : RoomState} (h : Reachable db r) (sid : String) (now : Int) :
      Reachable db (pauseH r sid now)
  | resume {r : RoomState} (h : Reachable db r) (sid : String) (now : Int) :
      Reachable db (resumeH r sid now)
  | skip {r : RoomState} (h : Reachable db r) (sid : String) (now : Int) :
      Reachable db (skipPhaseH db r sid now)
  | disconnectStep {r : RoomState} (h : Reachable db r) (sid : String) :
      Reachable db (disconnectH r sid)
  | tick {r : RoomState} (h : Reachable db r) (now : Int) :
      Reachable db (gameLoopTick db r now)

/-- Deadline bookkeeping that actually holds in every reachable room
state.  (The spec's stronger claim that `revealDeadlineTs` is null
outside an unpaused reveal fails: `nextQuestion` never clears it.) -/
def deadlineInv (r : RoomState) : Prop :=
  (r.phase = Phase.lobby → r.qDeadlineTs = none ∧ r.revealDeadlineTs = none) ∧
  (r.phase = Phase.question → r.paused = false → r.qDeadlineTs.isSome) ∧
  (r.phase = Phase.question → r.paused = true → r.pauseRemaining.isSome) ∧
  (r.phase = Phase.reveal → r.qDeadlineTs = none) ∧
  (r.phase = Phase.reveal → r.paused = false → r.revealDeadlineTs.isSome) ∧
  (r.phase = Phase.reveal → r.paused = true → r.pauseRemaining.isSome)

@[simp]
theorem revealAnswer_phase (r : RoomState) :
    (GameManager.revealAnswer r).phase = Phase.reveal := by
  unfold GameManager.revealAnswer
  cases r.correctIndex <;> rfl

@[simp]
theorem revealAnswer_qDeadlineTs (r : RoomState) :
    (GameManager.revealAnswer r).qDeadlineTs = none := by
  unfold GameManager.revealAnswer
  cases r.correctIndex <;> rfl

@[simp]
theorem revealAnswer_paused (r : RoomState) :
    (GameManager.revealAnswer r).paused = r.paused := by
  unfold GameManager.revealAnswer
  cases r.correctIndex <;> rfl

@[simp]
theorem revealAnswer_pauseRemaining (r : RoomState) :
    (GameManager.revealAnswer r).pauseRemaining = r.pauseRemaining := by
  unfold GameManager.revealAnswer
  cases r.correctIndex <;> rfl

@[simp]
theorem revealAnswer_revealDeadlineTs (r : RoomState) :
    (GameManager.revealAnswer r).revealDeadlineTs = r.revealDeadlineTs := by
  unfold GameManager.revealAnswer
  cases r.correctIndex <;> rfl

theorem deadlineInv_congr {a b : RoomState}
    (hphase : b.phase = a.phase) (hpaused : b.paused = a.paused)
    (hq : b.qDeadlineTs = a.qDeadlineTs)
    (hr : b.revealDeadlineTs = a.revealDeadlineTs)
    (hrem : b.pauseRemaining = a.pauseRemaining)
    (h : deadlineInv a) : deadlineInv b := by
  unfold deadlineInv at *
  rw [hphase, hpaused, hq, hr, hrem]
  exact h

theorem deadlineInv_revealAndSchedule (r : RoomState) (now : Int)
    (h : r.paused = true → r.pauseRemaining.isSome) :
    deadlineInv (revealAndSchedule r now) := by
  unfold deadlineInv revealAndSchedule
  exact ⟨by simp, by simp, by simp, by simp, by simp, by simpa using h⟩

theorem deadlineInv_nextQuestionLoad (db : DB) (r : RoomState) (now : Int)
    (h : r.paused = false) : deadlineInv (GameManager.nextQuestionLoad db r now) := by
  unfold GameManager.nextQuestionLoad
  split
  · exact ⟨by simp, by simp, by simp, by simp, by simp, by simp⟩
  · split
    · exact ⟨by simp, by simp, by simp, by simp, by simp, by simp⟩
    · split
      · exact ⟨by simp, by simp, by simp, by simp, by simp, by simp⟩
      · exact ⟨by simp, by simp, by simp [h], by simp, by simp, by simp⟩

theorem deadlineInv_nextQuestion (db : DB) (r : RoomState) (now : Int) :
    deadlineInv (GameManager.nextQuestion db r now) := by
  unfold GameManager.nextQuestion
  exact deadlineInv_nextQuestionLoad db (GameManager.resetRoomForNext r) now rfl

theorem deadlineInv_createRoomHandlerRoom
    (code playerToken sid playerName playerAvatar : String) (now : Int) :
    deadlineInv (createRoomHandlerRoom code playerToken sid playerName playerAvatar now) := by
  unfold deadlineInv createRoomHandlerRoom GameManager.initialRoom
  exact ⟨by simp, by simp, by simp, by simp, by simp, by simp⟩

theorem deadlineInv_joinRoomH (r : RoomState) (token sid name avatar : String)
    (now : Int) (h : deadlineInv r) :
    deadlineInv (joinRoomH r token sid name avatar now) := by
  exact deadlineInv_congr rfl rfl rfl rfl rfl h

theorem deadlineInv_updateSettingsH (r : RoomState) (sid : String) (s : Settings)
    (h : deadlineInv r) : deadlineInv (updateSettingsH r sid s) := by
  refine deadlineInv_congr ?_ ?_ ?_ ?_ ?_ h <;>
    (unfold updateSettingsH; split
     · rfl
     · split <;> rfl)

theorem deadlineInv_disconnectH (r : RoomState) (sid : String)
    (h : deadlineInv r) : deadlineInv (disconnectH r sid) := by
  exact deadlineInv_congr rfl rfl rfl rfl rfl h

theorem deadlineInv_startGameH (db : DB) (shuffle : List String → List String)
    (r : RoomState) (sid : String) (config : Config) (now : Int)
    (h : deadlineInv r) : deadlineInv (startGameH db shuffle r sid config now) := by
  unfold startGameH
  split
  · exact h
  · split
    · exact deadlineInv_nextQuestion db _ now
    · exact h

theorem deadlineInv_useJokerH (shuffleIdx : List Int → List Int) (r : RoomState)
    (sid ty : String) (h : deadlineInv r) :
    deadlineInv (useJokerH shuffleIdx r sid ty).1 := by
  refine deadlineInv_congr ?_ ?_ ?_ ?_ ?_ h <;>
    (unfold useJokerH; split
     · rfl
     · split
       · rfl
       · unfold useJokerApply
         split
         · rfl
         · split
           · rfl
           · split
             · rfl
             · split <;> rfl)

theorem deadlineInv_submitAnswerH (r : RoomState) (sid : String) (choice now : Int)
    (h : deadlineInv r) : deadlineInv (submitAnswerH r sid choice now).1 := by
  unfold submitAnswerH
  split
  · exact h
  · split
    · rename_i hq
      split
      · refine ⟨by simp [submitReveal], by simp [submitReveal], by simp [submitReveal],
          by simp [submitReveal], by simp [submitReveal], ?_⟩
        intro _ hpa
        have hpaused : r.paused = true := by
          simpa [submitReveal, submitApply] using hpa
        have hrem := h.2.2.1 hq hpaused
        simpa [submitReveal, submitApply] using hrem
      · exact deadlineInv_congr rfl rfl rfl rfl rfl h
    · exact h

theorem deadlineInv_pauseH (r : RoomState) (sid : String) (now : Int)
    (h : deadlineInv r) : deadlineInv (pauseH r sid now) := by
  obtain ⟨h1, h2, h3, h4, h5, h6⟩ := h
  unfold pauseH
  split
  · exact ⟨h1, h2, h3, h4, h5, h6⟩
  · split
    · rename_i p hp hcond
      split
      · rename_i d hphase hqd
        exact ⟨by simp [hphase], by simp, by simp, by simp [hphase],
          by simp [hphase], by simp [hphase]⟩
      · rename_i d hphase hrd
        exact ⟨by simp [hphase], by simp [hphase], by simp [hphase],
          fun _ => h4 hphase, by simp, by simp⟩
      · rename_i hn1 hn2
        refine ⟨h1, by simp, ?_, fun hp2 => h4 hp2, by simp, ?_⟩
        · intro hphase _
          have hq := h2 hphase hcond.2
          obtain ⟨d, hd⟩ := Option.isSome_iff_exists.mp hq
          exact absurd hd (fun hdd => hn1 d hphase hdd)
        · intro hphase _
          have hrv := h5 hphase hcond.2
          obtain ⟨d, hd⟩ := Option.isSome_iff_exists.mp hrv
          exact absurd hd (fun hdd => hn2 d hphase hdd)
    · exact ⟨h1, h2, h3, h4, h5, h6⟩

theorem deadlineInv_resumeH (r : RoomState) (sid : String) (now : Int)
    (h : deadlineInv r) : deadlineInv (resumeH r sid now) := by
  obtain ⟨h1, h2, h3, h4, h5, h6⟩ := h
  unfold resumeH
  split
  · exact ⟨h1, h2, h3, h4, h5, h6⟩
  · split
    · rename_i p hp hcond
      unfold resumeRestore
      split
      · rename_i rem hphase hrem
        exact ⟨by simp [hphase], by simp, by simp, by simp [hphase],
          by simp [hphase], by simp [hphase]⟩
      · rename_i rem hphase hrem
        exact ⟨by simp [hphase], by simp [hphase], by simp [hphase],
          fun _ => h4 hphase, by simp, by simp⟩
      · rename_i hn1 hn2
        refine ⟨h1, ?_, by simp, fun hp2 => h4 hp2, ?_, by simp⟩
        · intro hphase _
          have hq := h3 hphase hcond.2
          obtain ⟨d, hd⟩ := Option.isSome_iff_exists.mp hq
          exact absurd hd (fun hdd => hn1 d hphase hdd)
        · intro hphase _
          have hrv := h6 hphase hcond.2
          obtain ⟨d, hd⟩ := Option.isSome_iff_exists.mp hrv
          exact absurd hd (fun hdd => hn2 d hphase hdd)
    · exact ⟨h1, h2, h3, h4, h5, h6⟩

theorem deadlineInv_skipApply (db : DB) (r : RoomState) (now : Int)
    (h : deadlineInv r) : deadlineInv (skipApply db r now) := by
  obtain ⟨h1, h2, h3, h4, h5, h6⟩ := h
  unfold skipApply
  split
  · exact deadlineInv_revealAndSchedule _ now (by simp [clearPause])
  · split
    · exact deadlineInv_nextQuestion db _ now
    · rename_i hn1 hn2
      exact ⟨h1, fun hq => absurd hq hn1, fun hq => absurd hq hn1,
        fun hv => absurd hv hn2, fun hv => absurd hv hn2, fun hv => absurd hv hn2⟩

theorem deadlineInv_skipPhaseH (db : DB) (r : RoomState) (sid : String) (now : Int)
    (h : deadlineInv r) : deadlineInv (skipPhaseH db r sid now) := by
  unfold skipPhaseH
  split
  · exact h
  · split
    · exact deadlineInv_skipApply db r now h
    · exact h

theorem tickQuestionStage_paused (r : RoomState) (now : Int) :
    (tickQuestionStage r now).paused = r.paused := by
  unfold tickQuestionStage
  split
  · split
    · simp [revealAndSchedule]
    · rfl
  · rfl

theorem deadlineInv_tickQuestionStage (r : RoomState) (now : Int)
    (hp : r.paused = false) (h : deadlineInv r) :
    deadlineInv (tickQuestionStage r now) := by
  unfold tickQuestionStage
  split
  · split
    · exact deadlineInv_revealAndSchedule r now (by simp [hp])
    · exact h
  · exact h

theorem deadlineInv_tickAllAnsweredStage (r : RoomState) (now : Int)
    (hp : r.paused = false) (h : deadlineInv r) :
    deadlineInv (tickAllAnsweredStage r now) := by
  unfold tickAllAnsweredStage
  split
  · split
    · exact deadlineInv_revealAndSchedule r now (by simp [hp])
    · exact h
  · exact h

theorem deadlineInv_tickPhases (db : DB) (r : RoomState) (now : Int)
    (h : deadlineInv r) : deadlineInv (tickPhases db r now) := by
  unfold tickPhases
  split
  · exact h
  · rename_i hpt
    have hp : r.paused = false := by simpa using hpt
    split
    · exact deadlineInv_tickAllAnsweredStage _ now
        (by rw [tickQuestionStage_paused]; exact hp)
        (deadlineInv_tickQuestionStage r now hp h)
    · split
      · split
        · split
          · exact deadlineInv_nextQuestion db _ now
          · exact h
        · exact h
      · exact h

theorem deadlineInv_refreshActivity (r : RoomState) (now : Int)
    (h : deadlineInv r) : deadlineInv (refreshActivity r now) := by
  refine deadlineInv_congr ?_ ?_ ?_ ?_ ?_ h <;>
    (unfold refreshActivity; split <;> rfl)

theorem deadlineInv_gameLoopTick (db : DB) (r : RoomState) (now : Int)
    (h : deadlineInv r) : deadlineInv (gameLoopTick db r now) := by
  unfold gameLoopTick
  split
  · exact h
  · split
    · exact ⟨by simp, by simp, by simp, by simp, by simp, by simp⟩
    · exact deadlineInv_tickPhases db _ now (deadlineInv_refreshActivity r now h)

theorem reachable_deadlineInv {db : DB} {r : RoomState} (h : Reachable db r) :
    deadlineInv r := by
  induction h with
  | create code playerToken sid playerName playerAvatar now =>
    exact deadlineInv_createRoomHandlerRoom code playerToken sid playerName playerAvatar now
  | join _ token sid name avatar now ih =>
    exact deadlineInv_joinRoomH _ token sid name avatar now ih
  | start _ shuffle sid config now ih =>
    exact deadlineInv_startGameH db shuffle _ sid config now ih
  | settingsUpdate _ sid s ih => exact deadlineInv_updateSettingsH _ sid s ih
  | submit _ sid choice now ih => exact deadlineInv_submitAnswerH _ sid choice now ih
  | joker _ shuffleIdx sid ty ih => exact deadlineInv_useJokerH shuffleIdx _ sid ty ih
  | pause _ sid now ih => exact deadlineInv_pauseH _ sid now ih
  | resume _ sid now ih => exact deadlineInv_resumeH _ sid now ih
  | skip _ sid now ih => exact deadlineInv_skipPhaseH db _ sid now ih
  | disconnectStep _ sid ih => exact deadlineInv_disconnectH _ sid ih
  | tick _ now ih => exact deadlineInv_gameLoopTick db _ now ih

end Server

theorem Registry.get_cons (kv : String × RoomState) (rest : Registry) (k : String) :
    Registry.get (kv :: rest) k = if kv.1 = k then some kv.2 else Registry.get rest k := by
  unfold Registry.get
  by_cases h : kv.1 = k
  · simp [List.find?_cons_of_pos, h]
  · simp [List.find?_cons_of_neg, h]

theorem Registry.set_cons_ne (kv : String × RoomState) (rest : Registry) (k : String)
    (v : RoomState) (h : ¬ kv.1 = k) :
    Registry.set (kv :: rest) k v = kv :: Registry.set rest k v := by
  unfold Registry.set
  by_cases hr : List.any rest (fun x => x.1 = k)
  · simp [List.any_cons, h, hr]
  · simp [List.any_cons, h, hr]

theorem Registry.set_cons_eq (kv : String × RoomState) (rest : Registry) (k : String)
    (v : RoomState) (h : kv.1 = k) :
    Registry.set (kv :: rest) k v =
      (k, v) :: List.map (fun x => if x.1 = k then (k, v) else x) rest := by
  unfold Registry.set
  simp [List.any_cons, h]

theorem Registry.get_set_self (reg : Registry) (k : String) (v : RoomState) :
    Registry.get (Registry.set reg k v) k = some v := by
  induction reg with
  | nil => simp [Registry.set, Registry.get, List.find?]
  | cons kv rest ih =>
    by_cases h : kv.1 = k
    · rw [Registry.set_cons_eq kv rest k v h, Registry.get_cons]
      simp
    · rw [Registry.set_cons_ne kv rest k v h, Registry.get_cons]
      simp [h, ih]

theorem Registry.get_mapReplace (rest : Registry) (k k2 : String) (v : RoomState)
    (h : k2 ≠ k) :
    Registry.get (List.map (fun x => if x.1 = k then (k, v) else x) rest) k2 =
      Registry.get rest k2 := by
  induction rest with
  | nil => rfl
  | cons kv rest ih =>
    by_cases hk : kv.1 = k
    · simp only [List.map_cons, if_pos hk]
      rw [Registry.get_cons, Registry.get_cons]
      rw [if_neg (fun hh => h hh.symm), if_neg (fun hh => h (hk ▸ hh).symm)]
      exact ih
    · simp only [List.map_cons, if_neg hk]
      rw [Registry.get_cons, Registry.get_cons]
      by_cases h2 : kv.1 = k2
      · simp [h2]
      · simp [h2, ih]

theorem Registry.get_set_other (reg : Registry) (k k2 : String) (v : RoomState)
    (h : k2 ≠ k) : Registry.get (Registry.set reg k v) k2 = Registry.get reg k2 := by
  induction reg with
  | nil =>
    simp only [Registry.set, List.any_nil, Bool.false_eq_true, if_false, List.nil_append]
    rw [Registry.get_cons, if_neg (fun hh => h hh.symm)]
  | cons kv rest ih =>
    by_cases hk : kv.1 = k
    · rw [Registry.set_cons_eq kv rest k v hk, Registry.get_cons, Registry.get_cons]
      rw [if_neg (fun hh => h hh.symm), if_neg (hk ▸ fun hh => h hh.symm)]
      exact Registry.get_mapReplace rest k k2 v h
    · rw [Registry.set_cons_ne kv rest k v hk, Registry.get_cons, Registry.get_cons]
      by_cases h2 : kv.1 = k2
      · simp [h2]
      · simp [h2, ih]

theorem Registry.get_del (reg : Registry) (k : String) :
    Registry.get (Registry.del reg k) k = none := by
  induction reg with
  | nil => rfl
  | cons kv rest ih =>
    unfold Registry.del at *
    by_cases hk : kv.1 = k
    · simpa [List.filter_cons, hk] using ih
    · simpa [List.filter_cons, hk, Registry.get_cons] using ih

theorem revealAnswer_players_eq (room : RoomState) (k : Int)
    (h : room.correctIndex = some k) :
    (GameManager.revealAnswer room).players =
      room.players.map
        (GameManager.scorePlayer (GameManager.getPointsForQuestion room.questionIndex) k) := by
  unfold GameManager.revealAnswer
  cases hc : room.correctIndex with
  | none => rw [hc] at h; cases h
  | some c =>
    rw [hc] at h
    injection h with hk
    subst hk
    rfl

theorem revealAnswer_revealData_eq (room : RoomState) (k : Int)
    (h : room.correctIndex = some k) :
    (GameManager.revealAnswer room).revealData =
      some { correctIndex := k
             picksByChoice := GameManager.buildPicks room.players
             pointsForThisRound := GameManager.getPointsForQuestion room.questionIndex } := by
  unfold GameManager.revealAnswer
  cases hc : room.correctIndex with
  | none => rw [hc] at h; cases h
  | some c =>
    rw [hc] at h
    injection h with hk
    subst hk
    rfl

theorem scorePlayer_score (b k : Int) (p : Player) :
    (GameManager.scorePlayer b k p).score =
      match p.selectedChoice with
      | none => p.score
      | some c =>
        if c = k then p.score + (if p.usedRiskThisQ then b * 2 else b)
        else if p.usedRiskThisQ then p.score - b else p.score := by
  unfold GameManager.scorePlayer
  cases p.selectedChoice with
  | none => rfl
  | some c =>
    by_cases hck : c = k
    · simp [hck]
    · by_cases hr : p.usedRiskThisQ <;> simp [hck, hr]

theorem pauseH_question (room : RoomState) (sid : String) (now : Int)
    (p : Player) (d : Int)
    (hp : Server.findBySocket room.players sid = some p)
    (hh : p.token = room.hostToken) (hnp : room.paused = false)
    (hq : room.phase = Phase.question) (hqd : room.qDeadlineTs = some d) :
    Server.pauseH room sid now =
      { room with
        paused := true
        pauseRemaining := some (max 0 (d - now))
        qDeadlineTs := none } := by
  unfold Server.pauseH
  split
  · rename_i hnone
    rw [hp] at hnone
    cases hnone
  · rename_i q hq2
    obtain rfl : q = p := Option.some.inj (hq2.symm.trans hp)
    rw [if_pos ⟨hh, hnp⟩]
    split
    · rename_i d2 hph hqd2
      obtain rfl : d2 = d := Option.some.inj (hqd2.symm.trans hqd)
      rfl
    · rename_i d2 hph hrd2
      rw [hq] at hph
      cases hph
    · rename_i hn1 hn2
      exact ((hn1 d hq hqd).elim)

theorem pauseH_reveal (room : RoomState) (sid : String) (now : Int)
    (p : Player) (d : Int)
    (hp : Server.findBySocket room.players sid = some p)
    (hh : p.token = room.hostToken) (hnp : room.paused = false)
    (hq : room.phase = Phase.reveal) (hrd : room.revealDeadlineTs = some d) :
    Server.pauseH room sid now =
      { room with
        paused := true
        pauseRemaining := some (max 0 (d - now))
        revealDeadlineTs := none } := by
  unfold Server.pauseH
  split
  · rename_i hnone
    rw [hp] at hnone
    cases hnone
  · rename_i q hq2
    obtain rfl : q = p := Option.some.inj (hq2.symm.trans hp)
    rw [if_pos ⟨hh, hnp⟩]
    split
    · rename_i d2 hph hqd2
      rw [hq] at hph
      cases hph
    · rename_i d2 hph hrd2
      obtain rfl : d2 = d := Option.some.inj (hrd2.symm.trans hrd)
      rfl
    · rename_i hn1 hn2
      exact ((hn2 d hq hrd).elim)

theorem resumeH_question (room : RoomState) (sid : String) (now : Int)
    (p : Player) (rem : Int)
    (hp : Server.findBySocket room.players sid = some p)
    (hh : p.token = room.hostToken) (hpz : room.paused = true)
    (hq : room.phase = Phase.question) (hrem : room.pauseRemaining = some rem) :
    Server.resumeH room sid now =
      { room with
        paused := false
        qDeadlineTs := some (now + rem)
        pauseRemaining := none } := by
  unfold Server.resumeH Server.resumeRestore
  split
  · rename_i hnone
    rw [hp] at hnone
    cases hnone
  · rename_i q hq2
    obtain rfl : q = p := Option.some.inj (hq2.symm.trans hp)
    rw [if_pos ⟨hh, hpz⟩]
    split
    · rename_i rem2 hph hrem2
      obtain rfl : rem2 = rem := Option.some.inj (hrem2.symm.trans hrem)
      rfl
    · rename_i rem2 hph hrem2
      rw [hq] at hph
      cases hph
    · rename_i hn1 hn2
      exact ((hn1 rem hq hrem).elim)

theorem resumeH_reveal (room : RoomState) (sid : String) (now : Int)
    (p : Player) (rem : Int)
    (hp : Server.findBySocket room.players sid = some p)
    (hh : p.token = room.hostToken) (hpz : room.paused = true)
    (hq : room.phase = Phase.reveal) (hrem : room.pauseRemaining = some rem) :
    Server.resumeH room sid now =
      { room with
        paused := false
        revealDeadlineTs := some (now + rem)
        pauseRemaining := none } := by
  unfold Server.resumeH Server.resumeRestore
  split
  · rename_i hnone
    rw [hp] at hnone
    cases hnone
  · rename_i q hq2
    obtain rfl : q = p := Option.some.inj (hq2.symm.trans hp)
    rw [if_pos ⟨hh, hpz⟩]
    split
    · rename_i rem2 hph hrem2
      rw [hq] at hph
      cases hph
    · rename_i rem2 hph hrem2
      obtain rfl : rem2 = rem := Option.some.inj (hrem2.symm.trans hrem)
      rfl
    · rename_i hn1 hn2
      exact ((hn2 rem hq hrem).elim)

theorem pauseH_noop_paused (room : RoomState) (sid : String) (now : Int)
    (hpz : room.paused = true) : Server.pauseH room sid now = room := by
  unfold Server.pauseH
  split
  · rfl
  · rw [if_neg (fun hc => absurd hc.2 (by simp [hpz]))]

theorem resumeH_noop_unpaused (room : RoomState) (sid : String) (now : Int)
    (hnp : room.paused = false) : Server.resumeH room sid now = room := by
  unfold Server.resumeH
  split
  · rfl
  · rw [if_neg (fun hc => absurd hc.2 (by simp [hnp]))]

theorem findBySocket_updateFirst (players : List Player) (sid : String)
    (f : Player → Player) (p : Player)
    (hp : Server.findBySocket players sid = some p)
    (hf : (f p).socketId = p.socketId) :
    Server.findBySocket (Server.updateFirstBySocket players sid f) sid = some (f p) := by
  induction players with
  | nil => simp [Server.findBySocket] at hp
  | cons q rest ih =>
    by_cases hq : q.socketId = sid
    · have hpq : p = q := by
        unfold Server.findBySocket at hp
        rw [List.find?_cons_of_pos _ (by simp [hq])] at hp
        exact (Option.some.inj hp).symm
      subst hpq
      unfold Server.updateFirstBySocket
      rw [if_pos hq]
      unfold Server.findBySocket
      rw [List.find?_cons_of_pos _ (by simp [hf, hq])]
    · unfold Server.updateFirstBySocket
      rw [if_neg hq]
      unfold Server.findBySocket at hp ⊢
      rw [List.find?_cons_of_neg _ (by simp [hq])] at hp ⊢
      exact ih hp

theorem mem_updateFirst_of_ne (players : List Player) (sid : String)
    (f : Player → Player) (q : Player) (hmem : q ∈ players)
    (hne : q.socketId ≠ sid) :
    q ∈ Server.updateFirstBySocket players sid f := by
  induction players with
  | nil => cases hmem
  | cons r rest ih =>
    unfold Server.updateFirstBySocket
    rcases List.mem_cons.mp hmem with rfl | hmem2
    · rw [if_neg hne]
      exact List.mem_cons_self _ _
    · by_cases hr : r.socketId = sid
      · rw [if_pos hr]
        exact List.mem_cons_of_mem _ hmem2
      · rw [if_neg hr]
        exact List.mem_cons_of_mem _ (ih hmem2)

theorem not_all_answered (players : List Player) (q : Player)
    (hmem : q ∈ players) (hnone : q.selectedChoice = none) :
    players.all (fun p => p.selectedChoice.isSome) = false := by
  by_cases hall : players.all (fun p => p.selectedChoice.isSome) = true
  · have := List.all_eq_true.mp hall q hmem
    rw [hnone] at this
    simp at this
  · simpa using hall

theorem submitAnswerH_records (room : RoomState) (sid : String)
    (choice now : Int) (p : Player)
    (hp : Server.findBySocket room.players sid = some p)
    (hq : room.phase = Phase.question)
    (hnot : (Server.submitApply room sid choice now).players.all
      (fun x => x.selectedChoice.isSome) = false) :
    (Server.submitAnswerH room sid choice now).1 =
      Server.submitApply room sid choice now := by
  unfold Server.submitAnswerH
  split
  · rename_i hnone
    rw [hp] at hnone
    cases hnone
  · rw [if_pos hq, if_neg (by simp [hnot])]

/-- C1: evaluated at the failing input, the `room:update` event emitted by
`submit_answer` while the room is still in the question phase carries the
full room object, whose `correctIndex` field holds the current question's
correct choice index (2) — the broadcast payload leaks the answer before
the reveal transition, contradicting the information-hiding rule. -/
theorem correctIndex_broadcast_leak_in_question_phase :
    leakScenario.2.map (fun e =>
      match e with
      | ServerEvent.roomUpdate r => some (r.phase, r.correctIndex)
      | _ => none) = [some (Phase.question, some 2)] := by decide

/-- C3 counterexample: starting a two-question game and skipping through
reveal into the second question yields a reachable, unpaused,
question-phase room in which both `qDeadlineTs` and `revealDeadlineTs`
are non-null — `nextQuestion` never clears the reveal deadline, so the
claimed exactly-one-deadline invariant fails. -/
theorem deadline_invariant_counterexample :
    Server.Reachable dbTwoQuestions staleRevealRoom ∧
    staleRevealRoom.phase = Phase.question ∧
    staleRevealRoom.paused = false ∧
    staleRevealRoom.qDeadlineTs = some 32000 ∧
    staleRevealRoom.revealDeadlineTs = some 6000 := by
  refine ⟨?_, by decide, by decide, by decide, by decide⟩
  exact Server.Reachable.skip
    (Server.Reachable.skip
      (Server.Reachable.start (Server.Reachable.create "AB" "h" "s1" "Host" "" 0)
        (fun l => l) "s1" cfgDefault 0)
      "s1" 1000)
    "s1" 2000

/-- C3 (amended): in every reachable room state, an unpaused question
phase has a non-null `qDeadlineTs`, an unpaused reveal phase has a
non-null `revealDeadlineTs` and a null `qDeadlineTs`, and the lobby has
both deadlines null.  The original exactly-one/both-null condition fails
because `nextQuestion` does not clear `revealDeadlineTs` (a stale reveal
deadline can coexist with the question deadline and survive into
`finished`), and `submit_answer` during a paused question arms the reveal
deadline while paused. -/
theorem deadline_invariant_amended (db : DB) (r : RoomState)
    (h : Server.Reachable db r) :
    (r.phase = Phase.lobby → r.qDeadlineTs = none ∧ r.revealDeadlineTs = none) ∧
    (r.phase = Phase.question → r.paused = false → r.qDeadlineTs.isSome) ∧
    (r.phase = Phase.reveal → r.paused = false →
      r.revealDeadlineTs.isSome ∧ r.qDeadlineTs = none) := by
  obtain ⟨h1, h2, h3, h4, h5, h6⟩ := Server.reachable_deadlineInv h
  exact ⟨h1, h2, fun hv hp => ⟨h5 hv hp, h4 hv⟩⟩

/-- Witness instantiating the amended deadline invariant at a reachable
question-phase room with an armed question deadline. -/
theorem deadline_invariant_amended_witness :
    (staleRevealRoom.phase = Phase.lobby →
      staleRevealRoom.qDeadlineTs = none ∧ staleRevealRoom.revealDeadlineTs = none) ∧
    (staleRevealRoom.phase = Phase.question → staleRevealRoom.paused = false →
      staleRevealRoom.qDeadlineTs.isSome) ∧
    (staleRevealRoom.phase = Phase.reveal → staleRevealRoom.paused = false →
      staleRevealRoom.revealDeadlineTs.isSome ∧ staleRevealRoom.qDeadlineTs = none) :=
  deadline_invariant_amended dbTwoQuestions staleRevealRoom
    (Server.Reachable.skip
      (Server.Reachable.skip
        (Server.Reachable.start (Server.Reachable.create "AB" "h" "s1" "Host" "" 0)
          (fun l => l) "s1" cfgDefault 0)
        "s1" 1000)
      "s1" 2000)

/-- C4 counterexample: creating code ab and then AB again does not fail
and replaces the stored room — after the second creation the registry
holds the fresh room of the second host, not the original one. -/
theorem createRoom_collision_counterexample :
    Registry.get (GameManager.createRoom
      (GameManager.createRoom [] "ab" "h1" 0).1 "AB" "h2" 5).1 "AB" =
      some (GameManager.initialRoom "AB" "h2" 5) ∧
    Registry.get (GameManager.createRoom [] "ab" "h1" 0).1 "AB" =
      some (GameManager.initialRoom "AB" "h1" 0) ∧
    GameManager.initialRoom "AB" "h2" 5 ≠ GameManager.initialRoom "AB" "h1" 0 := by
  refine ⟨by decide, by decide, by decide⟩

/-- C4 (amended): `createRoom` normalizes the code to upper case and
unconditionally registers a fresh lobby-phase room under the normalized
code, replacing any existing room with that code rather than failing;
entries under other codes are untouched. -/
theorem createRoom_overwrites_amended (reg : Registry) (code hostToken : String)
    (now : Int) :
    (GameManager.createRoom reg code hostToken now).2 =
      GameManager.initialRoom (toUpperCase code) hostToken now ∧
    (GameManager.createRoom reg code hostToken now).2.phase = Phase.lobby ∧
    Registry.get (GameManager.createRoom reg code hostToken now).1 (toUpperCase code) =
      some (GameManager.initialRoom (toUpperCase code) hostToken now) ∧
    (∀ k, k ≠ toUpperCase code →
      Registry.get (GameManager.createRoom reg code hostToken now).1 k =
        Registry.get reg k) := by
  refine ⟨rfl, rfl, ?_, ?_⟩
  · exact Registry.get_set_self reg (toUpperCase code) _
  · intro k hk
    exact Registry.get_set_other reg (toUpperCase code) k _ hk

/-- Witness for the amended creation behavior at concrete codes. -/
theorem createRoom_overwrites_amended_witness :
    Registry.get (GameManager.createRoom [] "ab" "h1" 0).1 (toUpperCase "ab") =
      some (GameManager.initialRoom (toUpperCase "ab") "h1" 0) ∧
    Registry.get (GameManager.createRoom [] "ab" "h1" 0).1 "ZZ" =
      Registry.get ([] : Registry) "ZZ" :=
  ⟨(createRoom_overwrites_amended [] "ab" "h1" 0).2.2.1,
   (createRoom_overwrites_amended [] "ab" "h1" 0).2.2.2 "ZZ" (by decide)⟩

/-- C8 counterexample: running the `delete_room` flow on a code with no
matching room does nothing and emits no event at all — in particular the
claimed `room:deleted` acknowledgment to the initiating client is never
produced for a nonexistent room. -/
theorem deleteRoom_missing_ack_counterexample :
    Server.deleteRoomH [] "NOPE" "s1" = ([], []) := by decide

/-- C8 (amended): the `delete_room` flow is total (never throws).  When
the room exists and the caller is its host, the room is removed from the
registry and `room:deleted` is broadcast; when the room does not exist,
the handler leaves the registry unchanged and emits nothing — there is no
acknowledgment for a nonexistent room. -/
theorem deleteRoom_flow_amended (reg : Registry) (code sid : String) :
    (∀ room p, GameManager.getRoom reg code = some room →
      Server.findBySocket room.players sid = some p → p.token = room.hostToken →
      GameManager.getRoom (Server.deleteRoomH reg code sid).1 code = none ∧
      (Server.deleteRoomH reg code sid).2 = [ServerEvent.roomDeleted]) ∧
    (GameManager.getRoom reg code = none →
      Server.deleteRoomH reg code sid = (reg, [])) := by
  constructor
  · intro room p hroom hfind hhost
    unfold Server.deleteRoomH
    simp only [hroom, hfind]
    rw [if_pos hhost]
    have hcode : ¬ code = "" := by
      intro hc
      rw [hc] at hroom
      simp [GameManager.getRoom] at hroom
    unfold GameManager.getRoom at hroom
    rw [if_neg hcode] at hroom
    refine ⟨?_, rfl⟩
    unfold GameManager.getRoom GameManager.deleteRoom
    rw [if_neg hcode, if_neg hcode, hroom]
    exact Registry.get_del reg (toUpperCase code)
  · intro hnone
    unfold Server.deleteRoomH
    rw [hnone]

/-- Witness for the amended deletion flow: deleting the DEL room as its
host removes it and acknowledges with `room:deleted`. -/
theorem deleteRoom_flow_amended_witness :
    GameManager.getRoom (Server.deleteRoomH delReg "DEL" "sock-123").1 "DEL" = none ∧
    (Server.deleteRoomH delReg "DEL" "sock-123").2 = [ServerEvent.roomDeleted] :=
  (deleteRoom_flow_amended delReg "DEL" "sock-123").1 delRoom
    (Server.freshPlayer "t1" "sock-123" "H" "" 0) (by decide) (by decide) (by decide)

/-- C9 counterexample: a question-phase request for the already spent
fiftyFifty power-up (round lock not engaged) is dropped silently — the
handler changes nothing and emits no event, so the acting client is not
notified of this rejection as the claim requires. -/
theorem spent_joker_silent_counterexample :
    Server.useJokerH (fun l => l) spentJokerRoom "s1" "5050" =
      (spentJokerRoom, []) := by decide

/-- C9 (amended): during the question phase, a power-up request that is
round-locked (`simultaneousJokers` off and `jokerUsedThisQ` set) is
rejected with an error notification and no state change; a request whose
specific power-up the player has already spent is rejected with no state
change but also with no notification — in particular a spent fiftyFifty
neither re-eliminates choices nor re-sets `jokerUsedThisQ`. -/
theorem joker_rejections_amended (shuffleIdx : List Int → List Int)
    (room : RoomState) (sid ty : String) (p : Player)
    (hp : Server.findBySocket room.players sid = some p)
    (hq : room.phase = Phase.question) :
    (room.settings.simultaneousJokers = false → room.jokerUsedThisQ = true →
      Server.useJokerH shuffleIdx room sid ty =
        (room, [ServerEvent.errorMsg "Joker already used this round!"])) ∧
    ((room.settings.simultaneousJokers = true ∨ room.jokerUsedThisQ = false) →
      (ty = "5050" → p.joker5050 = false →
        Server.useJokerH shuffleIdx room sid ty = (room, [])) ∧
      (ty = "risk" → p.jokerRisk = false →
        Server.useJokerH shuffleIdx room sid ty = (room, [])) ∧
      (ty = "spy" → p.jokerSpy = false →
        Server.useJokerH shuffleIdx room sid ty = (room, []))) := by
  have hphase : ¬ room.phase ≠ Phase.question := by simp [hq]
  constructor
  · intro hsim hused
    unfold Server.useJokerH
    rw [if_neg hphase]
    simp only [hp]
    show Server.useJokerApply shuffleIdx room sid p ty = _
    unfold Server.useJokerApply
    rw [if_pos ⟨hsim, hused⟩]
  · intro hfree
    have hlock : ¬ (room.settings.simultaneousJokers = false ∧
        room.jokerUsedThisQ = true) := by
      rcases hfree with hs | hj
      · exact fun hc => by rw [hs] at hc; exact absurd hc.1 (by simp)
      · exact fun hc => by rw [hj] at hc; exact absurd hc.2 (by simp)
    refine ⟨?_, ?_, ?_⟩
    · intro hty hspent
      unfold Server.useJokerH
      rw [if_neg hphase]
      simp only [hp]
      show Server.useJokerApply shuffleIdx room sid p ty = _
      unfold Server.useJokerApply
      rw [if_neg hlock]
      rw [if_neg (fun hc => by rw [hspent] at hc; exact absurd hc.2 (by simp))]
      rw [if_neg (fun hc => by rw [hty] at hc; exact absurd hc.1 (by decide))]
      rw [if_neg (fun hc => by rw [hty] at hc; exact absurd hc.1 (by decide))]
    · intro hty hspent
      unfold Server.useJokerH
      rw [if_neg hphase]
      simp only [hp]
      show Server.useJokerApply shuffleIdx room sid p ty = _
      unfold Server.useJokerApply
      rw [if_neg hlock]
      rw [if_neg (fun hc => by rw [hty] at hc; exact absurd hc.1 (by decide))]
      rw [if_neg (fun hc => by rw [hspent] at hc; exact absurd hc.2 (by simp))]
      rw [if_neg (fun hc => by rw [hty] at hc; exact absurd hc.1 (by decide))]
    · intro hty hspent
      unfold Server.useJokerH
      rw [if_neg hphase]
      simp only [hp]
      show Server.useJokerApply shuffleIdx room sid p ty = _
      unfold Server.useJokerApply
      rw [if_neg hlock]
      rw [if_neg (fun hc => by rw [hty] at hc; exact absurd hc.1 (by decide))]
      rw [if_neg (fun hc => by rw [hty] at hc; exact absurd hc.1 (by decide))]
      rw [if_neg (fun hc => by rw [hspent] at hc; exact absurd hc.2 (by simp))]

/-- Witness for the amended power-up rejection rule: the round-locked
room gets the error notification, the spent-joker room gets silence. -/
theorem joker_rejections_amended_witness :
    Server.useJokerH (fun l => l) lockedJokerRoom "s1" "5050" =
      (lockedJokerRoom, [ServerEvent.errorMsg "Joker already used this round!"]) ∧
    Server.useJokerH (fun l => l) spentJokerRoom "s1" "5050" =
      (spentJokerRoom, []) :=
  ⟨(joker_rejections_amended (fun l => l) lockedJokerRoom "s1" "5050"
      ({ Server.freshPlayer "h" "s1" "Host" "" 0 with joker5050 := false })
      (by decide) (by decide)).1 rfl rfl,
   ((joker_rejections_amended (fun l => l) spentJokerRoom "s1" "5050"
      ({ Server.freshPlayer "h" "s1" "Host" "" 0 with joker5050 := false })
      (by decide) (by decide)).2 (Or.inr rfl)).1 rfl rfl⟩

/-- C2: scoring law at the question→reveal transition — with the current
question's correct index loaded, `revealAnswer` maps every player's score
by: null pick unchanged; correct pick plus the round value (doubled under
risk); incorrect pick minus the round value under risk, unchanged
otherwise; the round value recorded in the reveal data is
`floor(questionIndex / 2) + 1`, which is 1 at index 0 and 2 at index 2
(hence 4 when doubled by risk). -/
theorem scoring_law (room : RoomState) (k : Int)
    (h : room.correctIndex = some k) :
    (GameManager.revealAnswer room).players.map Player.score =
      room.players.map (fun p =>
        match p.selectedChoice with
        | none => p.score
        | some c =>
          if c = k then
            p.score + (if p.usedRiskThisQ then
              GameManager.getPointsForQuestion room.questionIndex * 2
            else GameManager.getPointsForQuestion room.questionIndex)
          else if p.usedRiskThisQ then
            p.score - GameManager.getPointsForQuestion room.questionIndex
          else p.score) ∧
    (∀ rd, (GameManager.revealAnswer room).revealData = some rd →
      rd.pointsForThisRound = GameManager.getPointsForQuestion room.questionIndex) ∧
    GameManager.getPointsForQuestion 0 = 1 ∧
    GameManager.getPointsForQuestion 2 = 2 ∧
    GameManager.getPointsForQuestion 2 * 2 = 4 := by
  refine ⟨?_, ?_, by decide, by decide, by decide⟩
  · rw [revealAnswer_players_eq room k h, List.map_map]
    refine List.map_congr_left ?_
    intro p _
    exact scorePlayer_score (GameManager.getPointsForQuestion room.questionIndex) k p
  · intro rd hrd
    rw [revealAnswer_revealData_eq room k h] at hrd
    injection hrd with hrd2
    rw [← hrd2]

/-- Witness for the scoring law: a room at question index 2 (round value
2) with a risking correct player (score 3 → 7) and a non-risking wrong
player (score 5 → 5). -/
theorem scoring_law_witness :
    scoringRoom.correctIndex = some 2 ∧
    (GameManager.revealAnswer scoringRoom).players.map Player.score =
      scoringRoom.players.map (fun p =>
        match p.selectedChoice with
        | none => p.score
        | some c =>
          if c = 2 then
            p.score + (if p.usedRiskThisQ then
              GameManager.getPointsForQuestion scoringRoom.questionIndex * 2
            else GameManager.getPointsForQuestion scoringRoom.questionIndex)
          else if p.usedRiskThisQ then
            p.score - GameManager.getPointsForQuestion scoringRoom.questionIndex
          else p.score) ∧
    (GameManager.revealAnswer scoringRoom).players.map Player.score = [7, 5] :=
  ⟨rfl, (scoring_law scoringRoom 2 rfl).1, by decide⟩

/-- C6: question exhaustion — when `nextQuestion` advances the index past
the end of `questionOrder`, the room finishes: the phase becomes
`finished`, no question is loaded (`currentQ` stays null) and no question
deadline is set; and a `finished` room stays `finished` under any further
`skip_phase` call. -/
theorem question_exhaustion (db : DB) (room : RoomState) (now : Int)
    (h : (room.questionOrder.length : Int) ≤ room.questionIndex + 1) :
    (GameManager.nextQuestion db room now).phase = Phase.finished ∧
    (GameManager.nextQuestion db room now).currentQ = none ∧
    (GameManager.nextQuestion db room now).qDeadlineTs = none ∧
    (∀ (r : RoomState) (sid : String) (t : Int), r.phase = Phase.finished →
      (Server.skipPhaseH db r sid t).phase = Phase.finished) := by
  refine ⟨?_, ?_, ?_, ?_⟩
  · unfold GameManager.nextQuestion GameManager.nextQuestionLoad
    split
    · rfl
    · rename_i hno
      exact absurd h hno
  · unfold GameManager.nextQuestion GameManager.nextQuestionLoad
    split
    · rfl
    · rename_i hno
      exact absurd h hno
  · unfold GameManager.nextQuestion GameManager.nextQuestionLoad
    split
    · rfl
    · rename_i hno
      exact absurd h hno
  · intro r sid t hf
    unfold Server.skipPhaseH
    split
    · exact hf
    · split
      · unfold Server.skipApply
        rw [if_neg (by simp [hf]), if_neg (by simp [hf])]
        exact hf
      · exact hf

/-- Witness for question exhaustion: a room whose single-question order
is already at its last index finishes on the next advance and stays
finished under skip. -/
theorem question_exhaustion_witness :
    ((exhaustedRoom.questionOrder.length : Int) ≤ exhaustedRoom.questionIndex + 1) ∧
    (GameManager.nextQuestion dbOneQuestion exhaustedRoom 5000).phase = Phase.finished ∧
    (GameManager.nextQuestion dbOneQuestion exhaustedRoom 5000).currentQ = none ∧
    (GameManager.nextQuestion dbOneQuestion exhaustedRoom 5000).qDeadlineTs = none ∧
    (Server.skipPhaseH dbOneQuestion
      { exhaustedRoom with phase := Phase.finished } "s1" 6000).phase = Phase.finished :=
  ⟨by decide,
   (question_exhaustion dbOneQuestion exhaustedRoom 5000 (by decide)).1,
   (question_exhaustion dbOneQuestion exhaustedRoom 5000 (by decide)).2.1,
   (question_exhaustion dbOneQuestion exhaustedRoom 5000 (by decide)).2.2.1,
   (question_exhaustion dbOneQuestion exhaustedRoom 5000 (by decide)).2.2.2
     { exhaustedRoom with phase := Phase.finished } "s1" 6000 rfl⟩

/-- C7: pause/resume round trip — for a host caller on an unpaused room,
pausing during `question` (resp. `reveal`) with deadline `d` caches
`pauseRemaining = max 0 (d - now)` and nulls that deadline; resuming
later restores the deadline of the active phase to the resume time plus
the cached remainder and clears `pauseRemaining`; pausing an already
paused room and resuming an unpaused room are no-ops. -/
theorem pause_resume_roundtrip (room : RoomState) (sid : String) (p : Player)
    (d now1 now2 : Int)
    (hp : Server.findBySocket room.players sid = some p)
    (hh : p.token = room.hostToken)
    (hnp : room.paused = false) :
    (room.phase = Phase.question → room.qDeadlineTs = some d →
      Server.pauseH room sid now1 =
        { room with
          paused := true
          pauseRemaining := some (max 0 (d - now1))
          qDeadlineTs := none } ∧
      Server.resumeH (Server.pauseH room sid now1) sid now2 =
        { room with
          paused := false
          pauseRemaining := none
          qDeadlineTs := some (now2 + max 0 (d - now1)) }) ∧
    (room.phase = Phase.reveal → room.revealDeadlineTs = some d →
      Server.pauseH room sid now1 =
        { room with
          paused := true
          pauseRemaining := some (max 0 (d - now1))
          revealDeadlineTs := none } ∧
      Server.resumeH (Server.pauseH room sid now1) sid now2 =
        { room with
          paused := false
          pauseRemaining := none
          revealDeadlineTs := some (now2 + max 0 (d - now1)) }) ∧
    (∀ (r : RoomState) (t : Int), r.paused = true → Server.pauseH r sid t = r) ∧
    (∀ (r : RoomState) (t : Int), r.paused = false → Server.resumeH r sid t = r) := by
  refine ⟨?_, ?_, fun r t hpz => pauseH_noop_paused r sid t hpz,
    fun r t hnp2 => resumeH_noop_unpaused r sid t hnp2⟩
  · intro hq hqd
    have h1 := pauseH_question room sid now1 p d hp hh hnp hq hqd
    refine ⟨h1, ?_⟩
    rw [h1]
    exact resumeH_question _ sid now2 p (max 0 (d - now1)) hp hh rfl hq rfl
  · intro hq hrd
    have h1 := pauseH_reveal room sid now1 p d hp hh hnp hq hrd
    refine ⟨h1, ?_⟩
    rw [h1]
    exact resumeH_reveal _ sid now2 p (max 0 (d - now1)) hp hh rfl hq rfl

/-- Witness for the pause/resume round trip: pausing the concrete room at
time 18000 with deadline 30000 caches 12000ms and resuming at 40000
yields deadline 52000. -/
theorem pause_resume_roundtrip_witness :
    Server.pauseH pausableRoom "s1" 18000 =
      { pausableRoom with
        paused := true
        pauseRemaining := some 12000
        qDeadlineTs := none } ∧
    Server.resumeH (Server.pauseH pausableRoom "s1" 18000) "s1" 40000 =
      { pausableRoom with
        paused := false
        pauseRemaining := none
        qDeadlineTs := some 52000 } :=
  ⟨by
    have h := (pause_resume_roundtrip pausableRoom "s1"
      (Server.freshPlayer "h" "s1" "Host" "" 0) 30000 18000 40000
      (by decide) (by decide) (by decide)).1 rfl rfl
    rw [h.1]
    decide,
   by
    have h := (pause_resume_roundtrip pausableRoom "s1"
      (Server.freshPlayer "h" "s1" "Host" "" 0) 30000 18000 40000
      (by decide) (by decide) (by decide)).1 rfl rfl
    rw [h.2]
    decide⟩

/-- C10: answer mutability and non-validation — while the phase is
`question`, `submit_answer` from a member socket overwrites that player's
`selectedChoice` with any supplied integer (no validation against the
option range), a second submission overwrites the first, and at reveal
any recorded value different from the correct index is scored as an
incorrect answer (minus the round value under risk, unchanged otherwise). -/
theorem submit_answer_overwrite_no_validation (room : RoomState) (sid : String)
    (c1 c2 now1 now2 : Int) (p q : Player)
    (hp : Server.findBySocket room.players sid = some p)
    (hq : room.phase = Phase.question)
    (hmem : q ∈ room.players) (hqs : q.socketId ≠ sid)
    (hqnone : q.selectedChoice = none) :
    (Server.submitAnswerH room sid c1 now1).1.phase = Phase.question ∧
    Server.findBySocket (Server.submitAnswerH room sid c1 now1).1.players sid =
      some { p with selectedChoice := some c1 } ∧
    Server.findBySocket
      (Server.submitAnswerH (Server.submitAnswerH room sid c1 now1).1 sid c2 now2).1.players
      sid = some { p with selectedChoice := some c2 } ∧
    (∀ (rm : RoomState) (k : Int), rm.correctIndex = some k →
      (GameManager.revealAnswer rm).players =
        rm.players.map
          (GameManager.scorePlayer (GameManager.getPointsForQuestion rm.questionIndex) k)) ∧
    (∀ (b k c : Int) (pl : Player), pl.selectedChoice = some c → c ≠ k →
      (GameManager.scorePlayer b k pl).score =
        (if pl.usedRiskThisQ then pl.score - b else pl.score)) := by
  have hmem1 : q ∈ (Server.submitApply room sid c1 now1).players :=
    mem_updateFirst_of_ne room.players sid _ q hmem hqs
  have hnot1 : (Server.submitApply room sid c1 now1).players.all
      (fun x => x.selectedChoice.isSome) = false :=
    not_all_answered _ q hmem1 hqnone
  have hrec1 := submitAnswerH_records room sid c1 now1 p hp hq hnot1
  have hfind1 : Server.findBySocket (Server.submitApply room sid c1 now1).players sid =
      some { p with selectedChoice := some c1 } :=
    findBySocket_updateFirst room.players sid _ p hp rfl
  have hmem2 : q ∈ (Server.submitApply (Server.submitApply room sid c1 now1) sid c2 now2).players :=
    mem_updateFirst_of_ne _ sid _ q hmem1 hqs
  have hnot2 : (Server.submitApply (Server.submitApply room sid c1 now1) sid c2 now2).players.all
      (fun x => x.selectedChoice.isSome) = false :=
    not_all_answered _ q hmem2 hqnone
  have hrec2 := submitAnswerH_records (Server.submitApply room sid c1 now1) sid c2 now2
    { p with selectedChoice := some c1 } hfind1 hq hnot2
  refine ⟨?_, ?_, ?_, ?_, ?_⟩
  · rw [hrec1]
    exact hq
  · rw [hrec1]
    exact hfind1
  · rw [hrec1, hrec2]
    exact findBySocket_updateFirst _ sid _ { p with selectedChoice := some c1 } hfind1 rfl
  · exact fun rm k hk => revealAnswer_players_eq rm k hk
  · intro b k c pl hsel hne
    rw [scorePlayer_score, hsel]
    simp [hne]

/-- Witness for answer overwrite: in the two-player question room, player
p2 submits 7 (out of range) and then 1; the recorded pick follows the
last submission each time and the room stays in the question phase. -/
theorem submit_answer_overwrite_witness :
    (Server.submitAnswerH pausableRoom "s2" 7 100).1.phase = Phase.question ∧
    Server.findBySocket (Server.submitAnswerH pausableRoom "s2" 7 100).1.players "s2" =
      some { Server.freshPlayer "p2" "s2" "P2" "" 0 with selectedChoice := some 7 } ∧
    Server.findBySocket
      (Server.submitAnswerH (Server.submitAnswerH pausableRoom "s2" 7 100).1 "s2" 1 200).1.players
      "s2" = some { Server.freshPlayer "p2" "s2" "P2" "" 0 with selectedChoice := some 1 } :=
  ⟨(submit_answer_overwrite_no_validation pausableRoom "s2" 7 1 100 200
      (Server.freshPlayer "p2" "s2" "P2" "" 0) (Server.freshPlayer "h" "s1" "Host" "" 0)
      (by decide) (by decide) (by decide) (by decide) (by decide)).1,
   (submit_answer_overwrite_no_validation pausableRoom "s2" 7 1 100 200
      (Server.freshPlayer "p2" "s2" "P2" "" 0) (Server.freshPlayer "h" "s1" "Host" "" 0)
      (by decide) (by decide) (by decide) (by decide) (by decide)).2.1,
   (submit_answer_overwrite_no_validation pausableRoom "s2" 7 1 100 200
      (Server.freshPlayer "p2" "s2" "P2" "" 0) (Server.freshPlayer "h" "s1" "Host" "" 0)
      (by decide) (by decide) (by decide) (by decide) (by decide)).2.2.1⟩

theorem mem_setAdd (l : List String) (x y : String) :
    y ∈ setAdd l x ↔ y ∈ l ∨ y = x := by
  unfold setAdd
  split
  · rename_i hx
    constructor
    · exact Or.inl
    · rintro (hy | rfl)
      · exact hy
      · exact hx
  · simp

theorem setAdd_length_le (l : List String) (x : String) :
    (setAdd l x).length ≤ l.length + 1 := by
  unfold setAdd
  split
  · exact Nat.le_succ _
  · simp

theorem setAdd_nodup (l : List String) (x : String) (h : l.Nodup) :
    (setAdd l x).Nodup := by
  unfold setAdd
  split
  · exact h
  · rename_i hx
    simp [List.nodup_append, h, hx]

theorem mem_foldl_setAdd (l init : List String) (y : String) :
    y ∈ l.foldl setAdd init ↔ y ∈ init ∨ y ∈ l := by
  induction l generalizing init with
  | nil => simp
  | cons x rest ih =>
    rw [List.foldl_cons, ih, mem_setAdd]
    constructor
    · rintro ((hy | rfl) | hy)
      · exact Or.inl hy
      · exact Or.inr (List.mem_cons_self _ _)
      · exact Or.inr (List.mem_cons_of_mem _ hy)
    · rintro (hy | hy)
      · exact Or.inl (Or.inl hy)
      · rcases List.mem_cons.mp hy with rfl | hy2
        · exact Or.inl (Or.inr rfl)
        · exact Or.inr hy2

theorem foldl_setAdd_length (l init : List String) :
    (l.foldl setAdd init).length ≤ init.length + l.length := by
  induction l generalizing init with
  | nil => simp
  | cons x rest ih =>
    rw [List.foldl_cons]
    calc (rest.foldl setAdd (setAdd init x)).length
        ≤ (setAdd init x).length + rest.length := ih (setAdd init x)
      _ ≤ (init.length + 1) + rest.length :=
          Nat.add_le_add_right (setAdd_length_le init x) rest.length
      _ = init.length + (x :: rest).length := by
          rw [List.length_cons]
          omega

theorem nodup_foldl_setAdd (l init : List String) (h : init.Nodup) :
    (l.foldl setAdd init).Nodup := by
  induction l generalizing init with
  | nil => exact h
  | cons x rest ih => exact ih (setAdd init x) (setAdd_nodup init x h)

theorem mem_listToSet (l : List String) (y : String) :
    y ∈ listToSet l ↔ y ∈ l := by
  unfold listToSet
  rw [mem_foldl_setAdd]
  simp

theorem listToSet_length_le (l : List String) : (listToSet l).length ≤ l.length := by
  have h := foldl_setAdd_length l []
  simpa [listToSet] using h

theorem listToSet_nodup (l : List String) : (listToSet l).Nodup :=
  nodup_foldl_setAdd l [] List.nodup_nil

theorem validIds_spec (db : DB) (allInvolved : List String) (id : String)
    (h : id ∈ GameManager.validIds db allInvolved) :
    ∃ q ∈ db.question, q.id = id ∧ q.deletedAt = none := by
  unfold GameManager.validIds at h
  have h2 := List.of_mem_filter h
  simpa using h2

theorem fillRemainder_subset (shuffle : List String → List String)
    (hs : ∀ l : List String, (shuffle l).Perm l)
    (allInvolved valid : List String) (totalNeeded : Nat) (finalIds : List String)
    (hsub : ∀ id ∈ finalIds, id ∈ valid) :
    ∀ id ∈ GameManager.fillRemainder shuffle allInvolved valid totalNeeded finalIds,
      id ∈ valid := by
  unfold GameManager.fillRemainder
  split
  · intro id hid
    rcases List.mem_append.mp hid with h1 | h2
    · exact hsub id h1
    · have h3 := (hs _).mem_iff.mp (List.take_subset _ _ h2)
      have h4 := List.of_mem_filter h3
      simp at h4
      exact h4.1
  · exact hsub

theorem fillRemainder_length (shuffle : List String → List String)
    (allInvolved valid : List String) (totalNeeded : Nat) (finalIds : List String)
    (hlen : finalIds.length ≤ totalNeeded) :
    (listToSet (GameManager.fillRemainder shuffle allInvolved valid totalNeeded
      finalIds)).length ≤ totalNeeded := by
  unfold GameManager.fillRemainder
  split
  · rename_i hlt
    have htake : ((shuffle (allInvolved.filter
        (fun id => id ∈ valid ∧ id ∉ finalIds))).take
          (totalNeeded - (listToSet finalIds).length)).length ≤
        totalNeeded - (listToSet finalIds).length := by
      exact List.length_take_le _ _
    have happ : (listToSet (finalIds ++ (shuffle (allInvolved.filter
        (fun id => id ∈ valid ∧ id ∉ finalIds))).take
          (totalNeeded - (listToSet finalIds).length))).length ≤
        (listToSet finalIds).length +
          ((shuffle (allInvolved.filter
            (fun id => id ∈ valid ∧ id ∉ finalIds))).take
              (totalNeeded - (listToSet finalIds).length)).length := by
      unfold listToSet
      rw [List.foldl_append]
      exact foldl_setAdd_length _ _
    omega
  · calc (listToSet finalIds).length ≤ finalIds.length := listToSet_length_le _
      _ ≤ totalNeeded := hlen

theorem perCollectionTake_subset (db : DB) (shuffle : List String → List String)
    (hs : ∀ l : List String, (shuffle l).Perm l)
    (collectionIds valid : List String) (countPerCol : Nat) :
    ∀ id ∈ GameManager.perCollectionTake db shuffle collectionIds valid countPerCol,
      id ∈ valid := by
  unfold GameManager.perCollectionTake
  suffices hgen : ∀ (cids : List String) (acc : List String),
      (∀ id ∈ acc, id ∈ valid) →
      ∀ id ∈ cids.foldl (fun (acc2 : List String) (cid : String) =>
          acc2 ++ (shuffle ((GameManager.questionsByCollection db collectionIds cid).filter
            (· ∈ valid))).take countPerCol) acc, id ∈ valid by
    exact hgen collectionIds [] (by simp)
  intro cids
  induction cids with
  | nil => intro acc hacc; exact hacc
  | cons c rest ih =>
    intro acc hacc
    rw [List.foldl_cons]
    refine ih _ ?_
    intro jd hjd
    rcases List.mem_append.mp hjd with hj | hj
    · exact hacc jd hj
    · have h3 := (hs _).mem_iff.mp (List.take_subset _ _ hj)
      have h4 := List.of_mem_filter h3
      simpa using h4

theorem perCollectionTake_length (db : DB) (shuffle : List String → List String)
    (collectionIds valid : List String) (countPerCol : Nat) :
    (GameManager.perCollectionTake db shuffle collectionIds valid countPerCol).length ≤
      collectionIds.length * countPerCol := by
  unfold GameManager.perCollectionTake
  suffices hgen : ∀ (cids : List String) (acc : List String),
      (cids.foldl (fun (acc2 : List String) (cid : String) =>
          acc2 ++ (shuffle ((GameManager.questionsByCollection db collectionIds cid).filter
            (· ∈ valid))).take countPerCol) acc).length ≤
        acc.length + cids.length * countPerCol by
    simpa using hgen collectionIds []
  intro cids
  induction cids with
  | nil => intro acc; simp
  | cons c rest ih =>
    intro acc
    rw [List.foldl_cons]
    have h1 := ih (acc ++ (shuffle ((GameManager.questionsByCollection db collectionIds
      c).filter (· ∈ valid))).take countPerCol)
    have h2 : ((shuffle ((GameManager.questionsByCollection db collectionIds c).filter
        (· ∈ valid))).take countPerCol).length ≤ countPerCol := by
      exact List.length_take_le _ _
    rw [List.length_append] at h1
    rw [List.length_cons]
    have h3 : (rest.length + 1) * countPerCol = rest.length * countPerCol + countPerCol :=
      Nat.succ_mul rest.length countPerCol
    omega

theorem customTakes_subset (db : DB) (shuffle : List String → List String)
    (hs : ∀ l : List String, (shuffle l).Perm l)
    (collectionIds : List String) (customRatios : List (String × Int))
    (valid : List String) :
    ∀ id ∈ GameManager.customTakes db shuffle collectionIds customRatios valid,
      id ∈ valid := by
  unfold GameManager.customTakes
  suffices hgen : ∀ (entries : List (String × Int)) (acc : List String),
      (∀ id ∈ acc, id ∈ valid) →
      ∀ id ∈ entries.foldl (fun (acc2 : List String) (entry : String × Int) =>
          if entry.2 > 0 ∧ entry.1 ∈ collectionIds then
            acc2 ++ (shuffle ((GameManager.questionsByCollection db collectionIds
              entry.1).filter (· ∈ valid))).take entry.2.toNat
          else acc2) acc, id ∈ valid by
    exact hgen customRatios [] (by simp)
  intro entries
  induction entries with
  | nil => intro acc hacc; exact hacc
  | cons e rest ih =>
    intro acc hacc
    rw [List.foldl_cons]
    refine ih _ ?_
    split
    · intro jd hjd
      rcases List.mem_append.mp hjd with hj | hj
      · exact hacc jd hj
      · have h3 := (hs _).mem_iff.mp (List.take_subset _ _ hj)
        have h4 := List.of_mem_filter h3
        simpa using h4
    · exact hacc

/-- C5 counterexample: with the custom strategy, `totalQuestions = 1` and
a per-collection count of 2 over a collection holding two valid
questions, the resolved question order has length 2, exceeding the
configured total — the custom per-collection counts are not capped. -/
theorem question_order_length_counterexample :
    (GameManager.resolveQuestionOrder dbCustom (fun l => l) cfgCustom).length = 2 ∧
    GameManager.configTotal cfgCustom = 1 := by
  refine ⟨by decide, by decide⟩

/-- C5 (amended): for every store with unique question ids, every
permutation-shuffle and every configuration, the resolved `questionOrder`
is duplicate-free and contains only ids of non-deleted questions; its
length is at most the configured `totalQuestions` for the
`by_collection` and `consistent` strategies (any filtered configuration
whose effective strategy is not a well-formed `custom`), and at most the
constant 30 for the no-filter fallback (which ignores the configured
total).  The original across-the-board `totalQuestions` bound fails for
`custom`, whose per-collection counts are not capped. -/
theorem question_order_amended (db : DB) (shuffle : List String → List String)
    (hs : ∀ l : List String, (shuffle l).Perm l)
    (hdb : (db.question.map Question.id).Nodup) (config : Config) :
    (GameManager.resolveQuestionOrder db shuffle config).Nodup ∧
    (∀ id ∈ GameManager.resolveQuestionOrder db shuffle config,
      ∃ q ∈ db.question, q.id = id ∧ q.deletedAt = none) ∧
    (config.collectionIds = [] ∧ config.tagIds = [] →
      (GameManager.resolveQuestionOrder db shuffle config).length ≤ 30) ∧
    ((config.collectionIds ≠ [] ∨ config.tagIds ≠ []) →
      ¬(GameManager.configStrategy config = "custom" ∧ config.customRatios.isSome) →
      (GameManager.resolveQuestionOrder db shuffle config).length ≤
        GameManager.configTotal config) := by
  have hvalid : ∀ id ∈ GameManager.selectorFinalIds db shuffle config,
      id ∈ GameManager.validIds db
        (GameManager.allInvolvedIds db config.collectionIds config.tagIds) := by
    unfold GameManager.selectorFinalIds
    split
    · unfold GameManager.pickConsistent
      exact fillRemainder_subset shuffle hs _ _ _ _
        (perCollectionTake_subset db shuffle hs _ _ _)
    · split
      · unfold GameManager.pickCustom
        exact fillRemainder_subset shuffle hs _ _ _ _
          (customTakes_subset db shuffle hs _ _ _)
      · intro id hid
        have h3 := (hs _).mem_iff.mp (List.take_subset _ _ hid)
        have h4 := List.of_mem_filter h3
        simpa using h4
  refine ⟨?_, ?_, ?_, ?_⟩
  · unfold GameManager.resolveQuestionOrder
    split
    · exact ((hs _).nodup_iff).mpr (listToSet_nodup _)
    · refine List.Nodup.sublist (List.take_sublist _ _) ?_
      refine ((hs _).nodup_iff).mpr ?_
      refine List.Nodup.sublist ?_ hdb
      exact List.Sublist.map Question.id (List.filter_sublist db.question)
  · unfold GameManager.resolveQuestionOrder
    split
    · intro id hid
      have h1 := (hs _).mem_iff.mp hid
      have h2 := (mem_listToSet _ id).mp h1
      exact validIds_spec db _ id (hvalid id h2)
    · intro id hid
      have h1 := (hs _).mem_iff.mp (List.take_subset _ _ hid)
      rcases List.mem_map.mp h1 with ⟨q, hq, rfl⟩
      refine ⟨q, List.filter_sublist db.question |>.subset hq, rfl, ?_⟩
      have := List.of_mem_filter hq
      simpa using this
  · intro hempty
    unfold GameManager.resolveQuestionOrder
    rw [if_neg (by simp [hempty.1, hempty.2])]
    exact List.length_take_le _ _
  · intro hfilters hnotcustom
    unfold GameManager.resolveQuestionOrder
    rw [if_pos hfilters]
    rw [(hs _).length_eq]
    have hfin : (GameManager.selectorFinalIds db shuffle config).length ≤
        GameManager.configTotal config ∨
        (listToSet (GameManager.selectorFinalIds db shuffle config)).length ≤
        GameManager.configTotal config := by
      by_cases hcons : GameManager.configStrategy config = "consistent" ∧
          config.collectionIds ≠ []
      · right
        unfold GameManager.selectorFinalIds
        rw [if_pos hcons]
        unfold GameManager.pickConsistent
        refine fillRemainder_length shuffle _ _ _ _ ?_
        calc (GameManager.perCollectionTake db shuffle config.collectionIds _
            (GameManager.configTotal config / config.collectionIds.length)).length
            ≤ config.collectionIds.length *
              (GameManager.configTotal config / config.collectionIds.length) :=
              perCollectionTake_length db shuffle _ _ _
          _ ≤ GameManager.configTotal config := by
              rw [Nat.mul_comm]
              exact Nat.div_mul_le_self _ _
      · left
        unfold GameManager.selectorFinalIds
        rw [if_neg hcons, if_neg hnotcustom]
        exact List.length_take_le _ _
    rcases hfin with hf | hf
    · calc (listToSet (GameManager.selectorFinalIds db shuffle config)).length
          ≤ (GameManager.selectorFinalIds db shuffle config).length :=
            listToSet_length_le _
        _ ≤ GameManager.configTotal config := hf
    · exact hf

/-- Witness for the amended selector guarantees, instantiated at the
custom-strategy store with the identity shuffle. -/
theorem question_order_amended_witness :
    (GameManager.resolveQuestionOrder dbCustom (fun l => l) cfgCustom).Nodup ∧
    (∀ id ∈ GameManager.resolveQuestionOrder dbCustom (fun l => l) cfgCustom,
      ∃ q ∈ dbCustom.question, q.id = id ∧ q.deletedAt = none) :=
  ⟨(question_order_amended dbCustom (fun l => l) (fun l => List.Perm.refl l)
      (by decide) cfgCustom).1,
   (question_order_amended dbCustom (fun l => l) (fun l => List.Perm.refl l)
      (by decide) cfgCustom).2.1⟩

end BubbleQuiz
